import Mathlib

/-!
Verification development for the `auto-genre` scripts of the
`thehomelabguy/jellyfin-setup` repository
(`create_genre_symlinks.py` and `clear_genre_folders.py`).

The Python sources are shallowly embedded here:

* Strings are handled as `List Char` (via `String.toList`); the ASCII
  semantics of the regular-expression classes `\w` and `\s` used by the
  scripts are modelled by explicit character predicates.
* The similarity score computed by `find_matching_jellyfin_item` is modelled
  exactly over `ℚ` (the Python floats `(overlap / max) * 30` are exactly
  rounded quotients of small integers, so order comparisons agree).
* The filesystem subtree below a directory is modelled by the inductive type
  `Entry` (symlink / regular file / directory), with directory listings as
  association lists from entry names to entries; real directory listings have
  unique names, and all operations are stated for first-occurrence lookup.
* HTTP effects (Jellyfin API) have no filesystem effect and are irrelevant to
  the properties below except for the data they return, which appears as
  explicit inputs (`CatalogItem` lists, authentication outcome).
-/

set_option maxHeartbeats 1000000

/-- ASCII semantics of the regex character class `\s` used in
`re.sub(r'\s*\(\d{4}\).*', '', name)` and by `str.split()` / `str.strip()`. -/
def isSpaceChar (c : Char) : Bool :=
  c = ' ' || c = '\t' || c = '\n' || c = '\r' || c = '\x0b' || c = '\x0c'

/-- ASCII semantics of the regex character class `\w` (word character)
used in `re.sub(r'[^\w\s]', '', name)`. -/
def isWordChar (c : Char) : Bool :=
  c.isAlphanum || c = '_'

/-- Model of `str.lower()` (ASCII). -/
def toLowerChars (cs : List Char) : List Char :=
  cs.map Char.toLower

/-- Does the regex `\(\d{4}\)` match at the head of the character list?
This is the year marker pattern of `create_genre_symlinks.py`. -/
def yearParenAt : List Char → Bool
  | c0 :: c1 :: c2 :: c3 :: c4 :: c5 :: _ =>
      c0 = '(' && c1.isDigit && c2.isDigit && c3.isDigit && c4.isDigit && c5 = ')'
  | _ => false

/-- Model of `re.search(r'\((\d{4})\)', name)`: digits of the leftmost
four-digit parenthesized year marker, if any. -/
def findYearDigits : List Char → Option (List Char)
  | [] => none
  | c :: cs =>
      if yearParenAt (c :: cs) then
        some ((c :: cs).drop 1 |>.take 4)
      else findYearDigits cs

/-- Prefix of the list before the leftmost `\(\d{4}\)` match (the whole list
when there is no match).  Used to model `re.sub(r'\s*\(\d{4}\).*', '', name)`:
the `.*` consumes everything after the marker. -/
def cutYear : List Char → List Char
  | [] => []
  | c :: cs => if yearParenAt (c :: cs) then [] else c :: cutYear cs

/-- Remove the run of trailing whitespace characters. -/
def dropTrailingSpaces (cs : List Char) : List Char :=
  (cs.reverse.dropWhile isSpaceChar).reverse

/-- Model of `re.sub(r'\s*\(\d{4}\).*', '', name)`: cut the list at the
leftmost year marker; the greedy `\s*` also swallows the whitespace run
immediately before the marker.  When there is no marker the list is
unchanged. -/
def subYearRest (cs : List Char) : List Char :=
  let t := cutYear cs
  if t.length = cs.length then cs else dropTrailingSpaces t

/-- Model of `str.strip()` (ASCII whitespace). -/
def stripChars (cs : List Char) : List Char :=
  dropTrailingSpaces (cs.dropWhile isSpaceChar)

/-- Model of `re.sub(r'[^\w\s]', '', name)`: remove every character that is
neither a word character nor whitespace. -/
def removePunct (cs : List Char) : List Char :=
  cs.filter (fun c => isWordChar c || isSpaceChar c)

/-- Normalization applied to the local folder name in
`find_matching_jellyfin_item` (lines 193-201 of `create_genre_symlinks.py`):
lower-case, drop everything from the first `(YYYY)` marker on (together with
the whitespace run before it), strip, then remove punctuation. -/
def cleanLocalName (s : String) : List Char :=
  removePunct (stripChars (subYearRest (toLowerChars s.toList)))

/-- Normalization applied to a catalog item name in
`find_matching_jellyfin_item` (lines 213-217): lower-case, then remove
punctuation.  Note: no year marker is stripped here. -/
def cleanItemName (s : String) : List Char :=
  removePunct (toLowerChars s.toList)

/-- Model of the year parsed from the local folder name
(`re.search(r'\((\d{4})\)', local_name)`, on the lower-cased name). -/
def localYearOf (s : String) : Option (List Char) :=
  findYearDigits (toLowerChars s.toList)

/-- A catalog item as returned by the Jellyfin `/Users/{id}/Items` endpoint
with `Fields=Genres,ProductionYear,Path`; only the fields the scripts read. -/
structure CatalogItem where
  Name : String
  itemType : String
  ProductionYear : Option Nat
  Genres : List String
deriving DecidableEq

/-- Model of `str(item.get('ProductionYear', '')) if item.get('ProductionYear') else None`:
`0` and a missing year are both falsy in Python, so both give `none`. -/
def itemYearOf (item : CatalogItem) : Option (List Char) :=
  match item.ProductionYear with
  | none => none
  | some y => if y = 0 then none else some (Nat.repr y).toList

/-- Model of `str.split()`: whitespace-separated words, no empty words. -/
def splitWordsAux : List Char → List Char → List (List Char)
  | [], acc => if acc = [] then [] else [acc.reverse]
  | c :: cs, acc =>
      if isSpaceChar c then
        if acc = [] then splitWordsAux cs [] else acc.reverse :: splitWordsAux cs []
      else splitWordsAux cs (c :: acc)

/-- Model of `str.split()` on a character list. -/
def splitWords (cs : List Char) : List (List Char) :=
  splitWordsAux cs []

/-- Does `needle` occur at the head of `hay`? -/
def listStartsWith : List Char → List Char → Bool
  | [], _ => true
  | _ :: _, [] => false
  | a :: as, b :: bs => a == b && listStartsWith as bs

/-- Model of Python's substring containment `needle in hay` (an empty needle
is contained in everything). -/
def hasSub : List Char → List Char → Bool
  | [], needle => needle.isEmpty
  | c :: rest, needle => listStartsWith needle (c :: rest) || hasSub rest needle

/-- The similarity score of `find_matching_jellyfin_item`
(lines 219-238 of `create_genre_symlinks.py`), computed exactly in `ℚ`:
100 for equal normalized names, else 50 for substring containment in either
direction, else `(|intersection| / max(|A|, |B|)) * 30` over the
whitespace-tokenized word sets (0 when either set is empty); plus 20 when
both years are present and equal. -/
def similarity_score (local_name : String) (item : CatalogItem) : ℚ :=
  let clean_local := cleanLocalName local_name
  let clean_item := cleanItemName item.Name
  let base : ℚ :=
    if clean_local = clean_item then 100
    else if hasSub clean_item clean_local || hasSub clean_local clean_item then 50
    else
      let local_words := (splitWords clean_local).dedup
      let item_words := (splitWords clean_item).dedup
      if local_words ≠ [] ∧ item_words ≠ [] then
        ((local_words.filter (fun w => w ∈ item_words)).length : ℚ) /
            (max local_words.length item_words.length : ℚ) * 30
      else 0
  base +
    match localYearOf local_name, itemYearOf item with
    | some ly, some iy => if ly = iy then 20 else 0
    | _, _ => 0

/-- Does the item have the type requested by the caller?  Models the two
`continue` guards at lines 207-210. -/
def typeWanted (is_movie : Bool) (item : CatalogItem) : Bool :=
  if is_movie then item.itemType = "Movie" else item.itemType = "Series"

/-- The candidate loop of `find_matching_jellyfin_item` (lines 206-242),
carrying the `(best_match, best_score)` accumulator; an item replaces the
accumulator exactly when `score > best_score and score > 40`. -/
def find_matching_go (local_name : String) (is_movie : Bool) :
    List CatalogItem → Option CatalogItem × ℚ → Option CatalogItem × ℚ
  | [], acc => acc
  | item :: rest, (best_match, best_score) =>
      if typeWanted is_movie item then
        let score := similarity_score local_name item
        if best_score < score ∧ 40 < score then
          find_matching_go local_name is_movie rest (some item, score)
        else
          find_matching_go local_name is_movie rest (best_match, best_score)
      else
        find_matching_go local_name is_movie rest (best_match, best_score)

/-- Model of `find_matching_jellyfin_item(local_path, jellyfin_items, is_movie)`.
The Python function receives a path and compares on `Path(local_path).name`;
the model receives that basename directly (the only caller passes
`os.path.join(media_path, item_name)`, whose basename is `item_name`). -/
def find_matching_jellyfin_item (local_name : String)
    (items : List CatalogItem) (is_movie : Bool) : Option CatalogItem :=
  (find_matching_go local_name is_movie items (none, 0)).1

/-! ## Filesystem model

A directory listing is an association list from entry names to entries.
Real listings have unique names; lookup takes the first occurrence. -/

/-- A filesystem entry under the genre root: a symbolic link (storing its
target path as components), a regular file (with its content), or a real
directory with its own listing. -/
inductive Entry where
  | symlink (target : List String)
  | file (content : String)
  | dir (children : List (String × Entry))

/-- Is the entry a symbolic link (`os.path.islink`)? -/
def isSymlinkE : Entry → Bool
  | .symlink _ => true
  | _ => false

/-- First entry with the given name in a directory listing. -/
def lookupEntry (name : String) : List (String × Entry) → Option Entry
  | [] => none
  | (n, e) :: rest => if n = name then some e else lookupEntry name rest

/-- Replace the first entry with the given name. -/
def replaceEntry (name : String) (e : Entry) : List (String × Entry) → List (String × Entry)
  | [] => []
  | (n, e0) :: rest =>
      if n = name then (n, e) :: rest else (n, e0) :: replaceEntry name e rest

/-- Entry at a path (a nonempty list of name components) below a listing. -/
def getPath : List (String × Entry) → List String → Option Entry
  | _, [] => none
  | es, [n] => lookupEntry n es
  | es, n :: rest =>
      match lookupEntry n es with
      | some (.dir cs) => getPath cs rest
      | _ => none

/-- The recursive walk of `clear_symlinks_in_directory` (identical in both
scripts): delete every symlink, descend into real subdirectories, keep
regular files and directories.  `os.walk(followlinks=False)` never descends
into a symlinked directory, so a deleted symlink's target is untouched. -/
def clearEntries : List (String × Entry) → List (String × Entry)
  | [] => []
  | (_, .symlink _) :: rest => clearEntries rest
  | (n, .file c) :: rest => (n, .file c) :: clearEntries rest
  | (n, .dir cs) :: rest => (n, .dir (clearEntries cs)) :: clearEntries rest

/-- Number of symlinks in the walked tree (the `total_symlinks` counter). -/
def countSymlinks : List (String × Entry) → Nat
  | [] => 0
  | (_, .symlink _) :: rest => countSymlinks rest + 1
  | (_, .file _) :: rest => countSymlinks rest
  | (_, .dir cs) :: rest => countSymlinks cs + countSymlinks rest

/-- Is the tree free of symlinks?  This holds for the output of
`clearEntries` and is the precondition under which clearing is the
identity. -/
def symFree : List (String × Entry) → Bool
  | [] => true
  | (_, .symlink _) :: _ => false
  | (_, .file _) :: rest => symFree rest
  | (_, .dir cs) :: rest => symFree cs && symFree rest

/-- Model of `clear_symlinks_in_directory(directory_path)`: on a nonexistent
root (`none`) it is a no-op returning `(0, 0)`; otherwise it removes every
symlink in the tree and returns the `(found, removed)` counts (removal never
fails in the model, so the counts agree). -/
def clear_symlinks_in_directory :
    Option (List (String × Entry)) → (Nat × Nat) × Option (List (String × Entry))
  | none => ((0, 0), none)
  | some es => ((countSymlinks es, countSymlinks es), some (clearEntries es))

/-- Length of the longest common component prefix, as in
`os.path.commonprefix` applied to component lists. -/
def commonPrefixLen : List String → List String → Nat
  | a :: as, b :: bs => if a = b then commonPrefixLen as bs + 1 else 0
  | _, _ => 0

/-- Model of `os.path.relpath(path, start)` on absolute paths given as
component lists: walk up with `..` past the uncommon part of `start`, then
down the uncommon part of `path`. -/
def relpathC (path start : List String) : List String :=
  let i := commonPrefixLen path start
  let rel := List.replicate (start.length - i) ".." ++ path.drop i
  if rel = [] then ["."] else rel

/-- Model of `create_symlink(source_path, genre_path, item_name,
container_target_path, genres_dir_container)` (lines 246-277), acting on the
genre folder's listing `children`.  The relative target is computed in the
container path namespace.  An existing symlink at the name is removed and
recreated; any other existing entry is skipped (`False`); otherwise the
symlink is created (`True`). -/
def create_symlink (children : List (String × Entry)) (genre_name item_name : String)
    (container_target_path genres_dir_container : List String) :
    Bool × List (String × Entry) :=
  let container_genre_path := genres_dir_container ++ [genre_name]
  let relative_target := relpathC container_target_path container_genre_path
  match lookupEntry item_name children with
  | some (.symlink _) =>
      (true, replaceEntry item_name (.symlink relative_target) children)
  | some _ => (false, children)
  | none => (true, children ++ [(item_name, .symlink relative_target)])

/-- Model of `re.sub(r'[<>:"/\\|?*]', '_', genre).strip()`. -/
def sanitizeGenre (g : String) : String :=
  String.mk (stripChars (g.toList.map (fun c =>
    if c = '<' || c = '>' || c = ':' || c = '"' || c = '/' || c = '\\' ||
        c = '|' || c = '?' || c = '*' then '_' else c)))

/-- All genre strings over the catalog, in item order (the Python code
accumulates them into a set; the model keeps the list and deduplicates
in `sortedGenres`). -/
def collectGenres (items : List CatalogItem) : List String :=
  items.foldl (fun acc it => acc ++ it.Genres) []

/-- Model of `sorted(all_genres)`: the distinct genre strings in ascending
order (insertion sort; Python's `sorted` produces the same ordered
sequence on the deduplicated set). -/
def sortedGenres (items : List CatalogItem) : List String :=
  ((collectGenres items).dedup).insertionSort (fun a b => a ≤ b)

/-- One step of the folder-creation loop of `ensure_genre_folders`
(lines 441-450): skip falsy (empty) genres, sanitize, and create the folder
when `genre_path.exists()` is false.  `Path(root) / ""` is the root itself,
which exists at this point, so a genre sanitizing to the empty string
creates nothing. -/
def ensureGenreStep (es : List (String × Entry)) (genre : String) :
    List (String × Entry) :=
  if genre = "" then es
  else
    let clean := sanitizeGenre genre
    if clean = "" then es
    else if (lookupEntry clean es).isSome then es
    else es ++ [(clean, .dir [])]

/-- Model of `ensure_genre_folders(genres_dir, jellyfin_items)`: create the
base directory when missing (`mkdir(parents=True, exist_ok=True)`), then
create a folder for every distinct sanitized genre that does not already
exist. -/
def ensure_genre_folders (items : List CatalogItem)
    (root : Option (List (String × Entry))) : List (String × Entry) :=
  let es := match root with
    | none => []
    | some es => es
  (sortedGenres items).foldl ensureGenreStep es

/-- A local media entry: a name listed by `os.listdir(media_path)` together
with the result of the `os.path.isdir` check. -/
structure MediaEntry where
  name : String
  isDir : Bool

/-- The per-genre linking step inside `process_media_folder`
(lines 578-595): sanitize the genre, skip when the genre folder does not
exist, otherwise create the symlink named after the local entry, pointing at
the container path of the entry relative to the container path of the genre
folder.  When the existing root entry is not a directory, `create_symlink`
fails with a caught OSError and the state is unchanged (a root-level symlink
cannot occur here: the pipeline links only after clearing). -/
def linkGenreStep (entry_name : String)
    (container_media_path genres_dir_container : List String)
    (root : List (String × Entry)) (genre : String) : List (String × Entry) :=
  let clean_genre := sanitizeGenre genre
  match lookupEntry clean_genre root with
  | some (.dir children) =>
      let container_item_path := container_media_path ++ [entry_name]
      let r := create_symlink children clean_genre entry_name
          container_item_path genres_dir_container
      replaceEntry clean_genre (.dir r.2) root
  | some _ => root
  | none => root

/-- Processing of one listed entry of a media folder (lines 548-600): skip
non-directories, match against the catalog, cap the genre list at 5, and
link into each existing genre folder. -/
def processMediaEntry (items : List CatalogItem)
    (container_media_path genres_dir_container : List String) (is_movie : Bool)
    (root : List (String × Entry)) (me : MediaEntry) : List (String × Entry) :=
  if !me.isDir then root
  else
    match find_matching_jellyfin_item me.name items is_movie with
    | none => root
    | some item =>
        let genres := item.Genres.take 5
        genres.foldl (linkGenreStep me.name container_media_path genres_dir_container) root

/-- Model of `process_media_folder(media_path, genre_base_path, jellyfin_items,
container_media_path, genres_dir_container, is_movie)`: a no-op when the media
path does not exist, otherwise a pass over the listed entries. -/
def process_media_folder (media : Option (List MediaEntry))
    (items : List CatalogItem)
    (container_media_path genres_dir_container : List String) (is_movie : Bool)
    (root : List (String × Entry)) : List (String × Entry) :=
  match media with
  | none => root
  | some entries =>
      entries.foldl
        (processMediaEntry items container_media_path genres_dir_container is_movie) root

/-- The fixed inputs of one reconcile run of `create_genre_symlinks.py`:
the catalog snapshot, the listings of the media roots (`none` = the path
does not exist), the include-shows flag, and the container-namespace paths
from the configuration. -/
structure PipelineEnv where
  items : List CatalogItem
  movies : Option (List MediaEntry)
  shows : Option (List MediaEntry)
  include_shows : Bool
  movies_dir_container : List String
  shows_dir_container : List String
  genres_dir_container : List String

/-- The filesystem part of `main()` of `create_genre_symlinks.py`
(lines 669-719): clear existing symlinks under the genre root when it
exists, ensure the genre folders, then link movies and (when enabled)
shows.  The Jellyfin library-management calls that follow have no
filesystem effect. -/
def runPipeline (env : PipelineEnv) (root : Option (List (String × Entry))) :
    Option (List (String × Entry)) :=
  let cleared : Option (List (String × Entry)) :=
    match root with
    | none => none
    | some es => some (clearEntries es)
  let ensured := ensure_genre_folders env.items cleared
  let afterMovies := process_media_folder env.movies env.items
      env.movies_dir_container env.genres_dir_container true ensured
  let afterAll :=
    if env.include_shows then
      process_media_folder env.shows env.items
          env.shows_dir_container env.genres_dir_container false afterMovies
    else afterMovies
  some afterAll

/-! ## Configuration and CLI exit codes -/

/-- Split a character list at the first occurrence of `sep` (Python's
`str.split(sep, 1)`); `none` when `sep` does not occur. -/
def breakAtChar (sep : Char) : List Char → Option (List Char × List Char)
  | [] => none
  | c :: cs =>
      if c = sep then some ([], cs)
      else
        match breakAtChar sep cs with
        | none => none
        | some (k, v) => some (c :: k, v)

/-- Parse one line of a flat `KEY=value` configuration file as both
`load_config` functions do: strip the line, skip empty and `#`-comment
lines and lines without `=`, split at the first `=`, strip key and value. -/
def parseConfigLine (line : String) : Option (String × String) :=
  let t := stripChars line.toList
  match t with
  | [] => none
  | c :: _ =>
      if c = '#' then none
      else
        match breakAtChar '=' t with
        | none => none
        | some (k, v) => some (String.mk (stripChars k), String.mk (stripChars v))

/-- Insert a key into the configuration dictionary, overwriting in place as
a Python `dict` assignment does. -/
def updateConfig (k v : String) : List (String × String) → List (String × String)
  | [] => [(k, v)]
  | (k0, v0) :: rest =>
      if k0 = k then (k, v) :: rest else (k0, v0) :: updateConfig k v rest

/-- First value stored under a key (keys are unique by construction). -/
def lookupConfig (name : String) : List (String × String) → Option String
  | [] => none
  | (n, v) :: rest => if n = name then some v else lookupConfig name rest

/-- Model of the line-parsing loop shared by both `load_config` functions:
the configuration dictionary built from the file's lines. -/
def load_config_dict (lines : List String) : List (String × String) :=
  lines.foldl (fun cfg line =>
    match parseConfigLine line with
    | none => cfg
    | some (k, v) => updateConfig k v cfg) []

/-- The values that `load_config` of `create_genre_symlinks.py` treats as a
true `INCLUDE_SHOWS` flag: `value.lower() in ('true', '1', 'yes', 'on')`. -/
def truthyValues : List String := ["true", "1", "yes", "on"]

/-- The include-shows flag as `main()` sees it: the boolean conversion of
`load_config` (line 37) composed with `config.get('INCLUDE_SHOWS', True)`
(line 621) — `true` when the key is absent. -/
def include_shows_of (cfg : List (String × String)) : Bool :=
  match lookupConfig "INCLUDE_SHOWS" cfg with
  | none => true
  | some v => String.mk (toLowerChars v.toList) ∈ truthyValues

/-- Model of `parse_path_mapping(path_config)` (identical in both scripts):
split `host:container` at the first colon, or use the same path for both. -/
def parse_path_mapping (s : String) : String × String :=
  match breakAtChar ':' s.toList with
  | some (h, c) => (String.mk (stripChars h), String.mk (stripChars c))
  | none => (String.mk (stripChars s.toList), String.mk (stripChars s.toList))

/-- The required configuration keys of `create_genre_symlinks.py` `main()`
(line 634). -/
def requiredConfigKeys : List String :=
  ["SERVER_URL", "USERNAME", "PASSWORD", "MOVIES_DIR", "GENRES_DIR"]

/-- Model of `[key for key in required_config if not config.get(key)]`:
a key is missing when absent or mapped to the (falsy) empty string. -/
def missing_config (cfg : List (String × String)) : List String :=
  requiredConfigKeys.filter (fun k => decide (((lookupConfig k cfg).getD "") = ""))

/-- The external outcomes that determine the exit code of
`create_genre_symlinks.py`: whether `.env` exists, its lines, whether
authentication produced a client and token, and the fetched catalog. -/
structure CreateRunEnv where
  env_file_exists : Bool
  env_lines : List String
  auth_ok : Bool
  items : List CatalogItem

/-- The exit code of `main()` of `create_genre_symlinks.py`: 1 from
`load_config` when `.env` is missing (line 26), 1 on missing required
configuration (line 639), 1 on failed authentication (line 655), 1 when no
items were fetched (line 665); otherwise the run completes with 0 (library
management failures are caught at line 736 and do not change the code). -/
def create_main_exit (e : CreateRunEnv) : Nat :=
  if !e.env_file_exists then 1
  else
    let config := load_config_dict e.env_lines
    if missing_config config ≠ [] then 1
    else if !e.auth_ok then 1
    else if e.items = [] then 1
    else 0

/-- The external outcomes that determine the exit code of
`clear_genre_folders.py`: whether `config.env` exists, its lines, and the
interactive confirmation response. -/
structure ClearRunEnv where
  config_file_exists : Bool
  config_lines : List String
  response : String

/-- The exit code of `main()` of `clear_genre_folders.py`: 1 from
`load_config` when `config.env` is missing (line 21), 1 when neither genre
directory is configured (line 114), 0 on cancellation (line 127), and 0 on
completion. -/
def clear_main_exit (e : ClearRunEnv) : Nat :=
  if !e.config_file_exists then 1
  else
    let config := load_config_dict e.config_lines
    let d1 := (parse_path_mapping ((lookupConfig "GENRES_DIR_1" config).getD "")).1
    let d2 := (parse_path_mapping ((lookupConfig "GENRES_DIR_2" config).getD "")).1
    if d1 = "" ∧ d2 = "" then 1
    else if String.mk (toLowerChars e.response.toList) ∈ ["y", "yes"] then 0
    else 0

/-- A run of `create_genre_symlinks.py` with a complete configuration and a
successful authentication whose catalog fetch returned no items. -/
def emptyCatalogRun : CreateRunEnv where
  env_file_exists := true
  env_lines := ["SERVER_URL=http://jf:8096", "USERNAME=u", "PASSWORD=p",
    "MOVIES_DIR=/data/movies:/media/Movies", "GENRES_DIR=/data/genres:/media/Genres"]
  auth_ok := true
  items := []

/-- The spec's exact-name matching example: catalog item "Inception"
(Movie, 2010). -/
def inceptionItem : CatalogItem :=
  ⟨"Inception", "Movie", some 2010, ["Sci-Fi"]⟩

/-- The spec's exact-name matching example: catalog item "Inception 2"
(Movie, 2012). -/
def inceptionSequel : CatalogItem :=
  ⟨"Inception 2", "Movie", some 2012, ["Sci-Fi"]⟩

/-- The spec's exact-name matching example catalog. -/
def inceptionCatalog : List CatalogItem := [inceptionItem, inceptionSequel]

/-- Provenance of a symlink created by a reconcile run: the link in genre
folder `g`, named `n`, with stored target `t` comes from a local directory
entry listed in the movies root (or, when show processing is enabled, the
shows root) that the matcher matched to a catalog item one of whose first
five genres sanitizes to `g`; the target is the container path of the entry
relative to the container path of the genre folder. -/
def CreatedSym (env : PipelineEnv) (g n : String) (t : List String) : Prop :=
  ∃ (mv : Bool) (entries : List MediaEntry) (me : MediaEntry) (item : CatalogItem),
    ((mv = true ∧ env.movies = some entries) ∨
     (mv = false ∧ env.include_shows = true ∧ env.shows = some entries)) ∧
    me ∈ entries ∧ me.isDir = true ∧ me.name = n ∧
    find_matching_jellyfin_item n env.items mv = some item ∧
    (∃ genre ∈ item.Genres.take 5, sanitizeGenre genre = g) ∧
    t = relpathC
      ((if mv then env.movies_dir_container else env.shows_dir_container) ++ [n])
      (env.genres_dir_container ++ [g])

/-- A one-movie demo catalog item. -/
def alphaItem : CatalogItem := ⟨"Alpha", "Movie", none, ["Action"]⟩

/-- A one-movie demo run environment: one local folder "Alpha" in the
movies root, catalog item "Alpha" with genre Action, shows disabled. -/
def alphaEnv : PipelineEnv where
  items := [alphaItem]
  movies := some [⟨"Alpha", true⟩]
  shows := none
  include_shows := false
  movies_dir_container := ["media", "Movies"]
  shows_dir_container := ["media", "Shows"]
  genres_dir_container := ["media", "Genres"]

/-- A catalog item whose only genre string is the non-empty string " "
(whitespace), which sanitizes to the empty string. -/
def blankGenreItem : CatalogItem := ⟨"Ghost", "Movie", none, [" "]⟩

/-- A catalog item with two ordinary genres. -/
def dualGenreItem : CatalogItem := ⟨"A", "Movie", none, ["Action", "Drama"]⟩

/-! ## Theorems -/

example : cleanItemName "Inception (2010)" = "inception 2010".toList := by decide
example : cleanLocalName "Inception (2010)" = "inception".toList := by decide

/-- C10: `main()` enables TV-show processing exactly when the configuration
file leaves `INCLUDE_SHOWS` unset, or sets it to a value whose lower-casing
is one of `true`, `1`, `yes`, `on`. -/
theorem c10_include_shows_flag (lines : List String) (v : String) :
    (lookupConfig "INCLUDE_SHOWS" (load_config_dict lines) = none →
      include_shows_of (load_config_dict lines) = true) ∧
    (lookupConfig "INCLUDE_SHOWS" (load_config_dict lines) = some v →
      (include_shows_of (load_config_dict lines) = true ↔
        (String.mk (toLowerChars v.toList) = "true" ∨
         String.mk (toLowerChars v.toList) = "1" ∨
         String.mk (toLowerChars v.toList) = "yes" ∨
         String.mk (toLowerChars v.toList) = "on"))) := by
  constructor
  · intro h
    simp [include_shows_of, h]
  · intro h
    simp [include_shows_of, h, truthyValues]

/-- Witness for C10: an empty configuration defaults the flag to `true`, and
`INCLUDE_SHOWS=Yes` enables it via the lower-cased value `yes`. -/
theorem c10_include_shows_flag_witness :
    include_shows_of (load_config_dict []) = true ∧
    (include_shows_of (load_config_dict ["INCLUDE_SHOWS=Yes"]) = true ↔
      (String.mk (toLowerChars "Yes".toList) = "true" ∨
       String.mk (toLowerChars "Yes".toList) = "1" ∨
       String.mk (toLowerChars "Yes".toList) = "yes" ∨
       String.mk (toLowerChars "Yes".toList) = "on")) :=
  ⟨(c10_include_shows_flag [] "").1 (by decide),
   (c10_include_shows_flag ["INCLUDE_SHOWS=Yes"] "Yes").2 (by decide)⟩

/-- C9, counterexample: with `.env` present, every required key set and
non-empty, and authentication succeeding, `create_genre_symlinks.py` still
exits with code 1 when the catalog fetch returns no items (line 663-665) —
a condition that is neither missing/invalid configuration nor an
authentication failure, contradicting the claim that no other condition
produces exit code 1. -/
theorem c9_exit_codes_counterexample :
    create_main_exit emptyCatalogRun = 1 ∧
    emptyCatalogRun.env_file_exists = true ∧
    missing_config (load_config_dict emptyCatalogRun.env_lines) = [] ∧
    emptyCatalogRun.auth_ok = true := by
  refine ⟨?_, rfl, ?_, rfl⟩ <;> decide

/-- C9, amended: the CLI entry points exit 0 or 1; the create entry point
exits 1 exactly when `.env` is missing, a required key is missing or empty,
authentication fails, or the fetched catalog is empty; the clear entry point
exits 1 exactly when `config.env` is missing or neither genre directory is
configured, and exits 0 both on user cancellation and on completion. -/
theorem c9_exit_codes_amended (e : CreateRunEnv) (e' : ClearRunEnv) :
    (create_main_exit e = 1 ↔
      (e.env_file_exists = false ∨
       missing_config (load_config_dict e.env_lines) ≠ [] ∨
       e.auth_ok = false ∨ e.items = [])) ∧
    (create_main_exit e = 0 ∨ create_main_exit e = 1) ∧
    (clear_main_exit e' = 1 ↔
      (e'.config_file_exists = false ∨
        ((parse_path_mapping ((lookupConfig "GENRES_DIR_1"
            (load_config_dict e'.config_lines)).getD "")).1 = "" ∧
         (parse_path_mapping ((lookupConfig "GENRES_DIR_2"
            (load_config_dict e'.config_lines)).getD "")).1 = ""))) ∧
    (clear_main_exit e' = 0 ∨ clear_main_exit e' = 1) := by
  unfold create_main_exit clear_main_exit
  refine ⟨?_, ?_, ?_, ?_⟩ <;> split_ifs <;> simp_all <;> tauto

/-- Witness for C9 (amended): the empty-catalog run exits 1, and a cancelled
clear run with one configured directory exits 0. -/
theorem c9_exit_codes_amended_witness :
    create_main_exit emptyCatalogRun = 1 ∧
    clear_main_exit ⟨true, ["GENRES_DIR_1=/data/genres"], "n"⟩ = 0 := by
  constructor
  · exact (c9_exit_codes_amended emptyCatalogRun ⟨true, [], ""⟩).1.mpr
      (Or.inr (Or.inr (Or.inr rfl)))
  · have h := (c9_exit_codes_amended emptyCatalogRun
      ⟨true, ["GENRES_DIR_1=/data/genres"], "n"⟩).2.2
    rcases h.2 with h0 | h1
    · exact h0
    · exact absurd (h.1.mp h1) (by decide)

/-! ## Association-list and clearing lemmas -/

theorem lookup_replaceEntry_self (es : List (String × Entry)) (n : String) (e : Entry)
    (h : (lookupEntry n es).isSome) :
    lookupEntry n (replaceEntry n e es) = some e := by
  induction es with
  | nil => simp [lookupEntry] at h
  | cons head tail ih =>
      obtain ⟨m, e0⟩ := head
      simp only [replaceEntry]
      by_cases hm : m = n
      · rw [if_pos hm]
        simp only [lookupEntry, if_pos hm]
      · rw [if_neg hm]
        simp only [lookupEntry, if_neg hm] at h ⊢
        exact ih h

theorem lookup_replaceEntry_ne (es : List (String × Entry)) (n m : String) (e : Entry)
    (h : m ≠ n) :
    lookupEntry m (replaceEntry n e es) = lookupEntry m es := by
  induction es with
  | nil => simp [replaceEntry]
  | cons head tail ih =>
      obtain ⟨k, e0⟩ := head
      simp only [replaceEntry]
      by_cases hk : k = n
      · rw [if_pos hk]
        have h1 : k ≠ m := fun hh => h (hh.symm.trans hk)
        simp only [lookupEntry, if_neg h1]
      · rw [if_neg hk]
        simp only [lookupEntry]
        by_cases hkm : k = m
        · rw [if_pos hkm, if_pos hkm]
        · rw [if_neg hkm, if_neg hkm]
          exact ih

theorem lookup_clear_file (es : List (String × Entry)) (n : String) (c : String)
    (h : lookupEntry n es = some (.file c)) :
    lookupEntry n (clearEntries es) = some (.file c) := by
  induction es with
  | nil => simp [lookupEntry] at h
  | cons head tail ih =>
      obtain ⟨m, e0⟩ := head
      cases e0 with
      | symlink t =>
          rw [clearEntries]
          by_cases hm : m = n
          · simp [lookupEntry, hm] at h
          · simp only [lookupEntry, if_neg hm] at h
            exact ih h
      | file c0 =>
          rw [clearEntries]
          by_cases hm : m = n
          · simp only [lookupEntry, if_pos hm] at h ⊢
            exact h
          · simp only [lookupEntry, if_neg hm] at h ⊢
            exact ih h
      | dir cs =>
          rw [clearEntries]
          by_cases hm : m = n
          · simp [lookupEntry, hm] at h
          · simp only [lookupEntry, if_neg hm] at h ⊢
            exact ih h

theorem lookup_clear_dir (es : List (String × Entry)) (n : String)
    (cs : List (String × Entry))
    (h : lookupEntry n es = some (.dir cs)) :
    lookupEntry n (clearEntries es) = some (.dir (clearEntries cs)) := by
  induction es with
  | nil => simp [lookupEntry] at h
  | cons head tail ih =>
      obtain ⟨m, e0⟩ := head
      cases e0 with
      | symlink t =>
          rw [clearEntries]
          by_cases hm : m = n
          · simp [lookupEntry, hm] at h
          · simp only [lookupEntry, if_neg hm] at h
            exact ih h
      | file c0 =>
          rw [clearEntries]
          by_cases hm : m = n
          · simp [lookupEntry, hm] at h
          · simp only [lookupEntry, if_neg hm] at h ⊢
            exact ih h
      | dir cs0 =>
          rw [clearEntries]
          by_cases hm : m = n
          · simp only [lookupEntry, if_pos hm] at h ⊢
            cases h
            rfl
          · simp only [lookupEntry, if_neg hm] at h ⊢
            exact ih h

theorem symFree_clearEntries (es : List (String × Entry)) :
    symFree (clearEntries es) = true := by
  induction es using clearEntries.induct with
  | case1 => rw [clearEntries, symFree]
  | case2 _ _ rest ih => rw [clearEntries]; exact ih
  | case3 n c rest ih => rw [clearEntries, symFree]; exact ih
  | case4 n cs rest ih1 ih2 => rw [clearEntries, symFree, ih1, ih2]; rfl

theorem symFree_lookup_not_symlink (es : List (String × Entry)) (n : String)
    (h : symFree es = true) (t : List String) :
    lookupEntry n es ≠ some (.symlink t) := by
  induction es with
  | nil => simp [lookupEntry]
  | cons head tail ih =>
      obtain ⟨m, e0⟩ := head
      cases e0 with
      | symlink t0 => rw [symFree] at h; exact absurd h (by simp)
      | file c0 =>
          rw [symFree] at h
          by_cases hm : m = n
          · simp [lookupEntry, hm]
          · simp only [lookupEntry, if_neg hm]
            exact ih h
      | dir cs0 =>
          rw [symFree] at h
          by_cases hm : m = n
          · simp [lookupEntry, hm]
          · simp only [lookupEntry, if_neg hm]
            exact ih (by simp_all)

theorem symFree_lookup_dir (es : List (String × Entry)) (n : String)
    (cs : List (String × Entry))
    (h : symFree es = true) (hl : lookupEntry n es = some (.dir cs)) :
    symFree cs = true := by
  induction es with
  | nil => simp [lookupEntry] at hl
  | cons head tail ih =>
      obtain ⟨m, e0⟩ := head
      cases e0 with
      | symlink t0 => rw [symFree] at h; exact absurd h (by simp)
      | file c0 =>
          rw [symFree] at h
          by_cases hm : m = n
          · simp [lookupEntry, hm] at hl
          · simp only [lookupEntry, if_neg hm] at hl
            exact ih h hl
      | dir cs0 =>
          rw [symFree] at h
          rw [Bool.and_eq_true] at h
          by_cases hm : m = n
          · simp only [lookupEntry, if_pos hm] at hl
            cases hl
            exact h.1
          · simp only [lookupEntry, if_neg hm] at hl
            exact ih h.2 hl

theorem getPath_one (es : List (String × Entry)) (n : String) :
    getPath es [n] = lookupEntry n es := rfl

theorem getPath_cons (es : List (String × Entry)) (n r : String) (rest : List String) :
    getPath es (n :: r :: rest) =
      match lookupEntry n es with
      | some (.dir cs) => getPath cs (r :: rest)
      | _ => none := rfl

theorem getPath_symFree_not_symlink :
    ∀ (p : List String) (es : List (String × Entry)), symFree es = true →
      ∀ t, getPath es p ≠ some (.symlink t)
  | [], _, _, t => by simp [getPath]
  | [n], es, h, t => by
      rw [getPath_one]
      exact symFree_lookup_not_symlink es n h t
  | n :: r :: rest, es, h, t => by
      rw [getPath_cons]
      cases hl : lookupEntry n es with
      | none => simp
      | some e =>
          cases e with
          | symlink t0 => simp
          | file c0 => simp
          | dir cs =>
              simp only
              exact getPath_symFree_not_symlink (r :: rest) cs
                (symFree_lookup_dir es n cs h hl) t

theorem getPath_clear_file :
    ∀ (p : List String) (es : List (String × Entry)) (c : String),
      getPath es p = some (.file c) → getPath (clearEntries es) p = some (.file c)
  | [], _, _, h => by simp [getPath] at h
  | [n], es, c, h => by
      rw [getPath_one] at h ⊢
      exact lookup_clear_file es n c h
  | n :: r :: rest, es, c, h => by
      rw [getPath_cons] at h ⊢
      cases hl : lookupEntry n es with
      | none => rw [hl] at h; simp at h
      | some e =>
          cases e with
          | symlink t0 => rw [hl] at h; simp at h
          | file c0 => rw [hl] at h; simp at h
          | dir cs =>
              rw [hl] at h
              simp only at h
              rw [lookup_clear_dir es n cs hl]
              simp only
              exact getPath_clear_file (r :: rest) cs c h

theorem getPath_clear_dir :
    ∀ (p : List String) (es : List (String × Entry)) (cs : List (String × Entry)),
      getPath es p = some (.dir cs) →
      getPath (clearEntries es) p = some (.dir (clearEntries cs))
  | [], _, _, h => by simp [getPath] at h
  | [n], es, cs, h => by
      rw [getPath_one] at h ⊢
      exact lookup_clear_dir es n cs h
  | n :: r :: rest, es, cs, h => by
      rw [getPath_cons] at h ⊢
      cases hl : lookupEntry n es with
      | none => rw [hl] at h; simp at h
      | some e =>
          cases e with
          | symlink t0 => rw [hl] at h; simp at h
          | file c0 => rw [hl] at h; simp at h
          | dir cs0 =>
              rw [hl] at h
              simp only at h
              rw [lookup_clear_dir es n cs0 hl]
              simp only
              exact getPath_clear_dir (r :: rest) cs0 cs h

/-- C6: clearing removes exactly the symlinks.  Clearing a nonexistent root
is a no-op returning zero found and zero removed; on an existing tree the
found and removed counts agree; after clearing, no path holds a symlink any
more; every regular file is still at its path with its content, and every
real subdirectory is still at its path (with its own subtree cleared
recursively). -/
theorem c6_clear_removes_exactly_symlinks :
    clear_symlinks_in_directory none = ((0, 0), none) ∧
    (∀ es, clear_symlinks_in_directory (some es) =
      ((countSymlinks es, countSymlinks es), some (clearEntries es))) ∧
    ∀ (es : List (String × Entry)) (p : List String),
      (∀ t, getPath (clearEntries es) p ≠ some (.symlink t)) ∧
      (∀ c, getPath es p = some (.file c) → getPath (clearEntries es) p = some (.file c)) ∧
      (∀ cs, getPath es p = some (.dir cs) →
        getPath (clearEntries es) p = some (.dir (clearEntries cs))) := by
  refine ⟨rfl, fun es => rfl, fun es p => ⟨?_, ?_, ?_⟩⟩
  · exact fun t => getPath_symFree_not_symlink p (clearEntries es) (symFree_clearEntries es) t
  · exact fun c => getPath_clear_file p es c
  · exact fun cs => getPath_clear_dir p es cs

/-- Witness for C6, on the spec's own scenario: a genre folder holding one
regular file, one regular subdirectory and one symlink.  After clearing, the
symlink is gone while the file (with its content) and the subdirectory
remain. -/
theorem c6_clear_removes_exactly_symlinks_witness :
    (getPath (clearEntries [("Action", Entry.dir [("film.txt", Entry.file "data"),
        ("Sub", Entry.dir []), ("Link", Entry.symlink ["..", "x"])])])
        ["Action", "Link"] ≠ some (Entry.symlink ["..", "x"])) ∧
    getPath (clearEntries [("Action", Entry.dir [("film.txt", Entry.file "data"),
        ("Sub", Entry.dir []), ("Link", Entry.symlink ["..", "x"])])])
        ["Action", "film.txt"] = some (Entry.file "data") ∧
    getPath (clearEntries [("Action", Entry.dir [("film.txt", Entry.file "data"),
        ("Sub", Entry.dir []), ("Link", Entry.symlink ["..", "x"])])])
        ["Action", "Sub"] = some (Entry.dir (clearEntries [])) := by
  refine ⟨?_, ?_, ?_⟩
  · exact (c6_clear_removes_exactly_symlinks.2.2 _ ["Action", "Link"]).1 ["..", "x"]
  · exact (c6_clear_removes_exactly_symlinks.2.2 _ ["Action", "film.txt"]).2.1 "data" rfl
  · exact (c6_clear_removes_exactly_symlinks.2.2 _ ["Action", "Sub"]).2.2 [] rfl

/-- C5: the conflict policy of `create_symlink`.  When a symlink already
occupies the target name it is removed and recreated (the call reports
success, the name now holds a symlink to the freshly computed relative
container target, and every other name is untouched); when a non-symlink
entry occupies the name, the call reports a skip and the listing — the
existing entry and its content included — is completely unchanged. -/
theorem c5_create_symlink_conflict_policy (children : List (String × Entry))
    (g n : String) (tgt gdc : List String) :
    (∀ old, lookupEntry n children = some (.symlink old) →
      (create_symlink children g n tgt gdc).1 = true ∧
      lookupEntry n (create_symlink children g n tgt gdc).2 =
        some (.symlink (relpathC tgt (gdc ++ [g]))) ∧
      ∀ m, m ≠ n → lookupEntry m (create_symlink children g n tgt gdc).2 =
        lookupEntry m children) ∧
    (∀ e, lookupEntry n children = some e → isSymlinkE e = false →
      (create_symlink children g n tgt gdc).1 = false ∧
      (create_symlink children g n tgt gdc).2 = children) := by
  constructor
  · intro old h
    have h1 : create_symlink children g n tgt gdc =
        (true, replaceEntry n (.symlink (relpathC tgt (gdc ++ [g]))) children) := by
      simp only [create_symlink, h]
    rw [h1]
    exact ⟨rfl, lookup_replaceEntry_self children n _ (by rw [h]; rfl),
      fun m hm => lookup_replaceEntry_ne children n m _ hm⟩
  · intro e h he
    have h1 : create_symlink children g n tgt gdc = (false, children) := by
      cases e with
      | symlink t => simp [isSymlinkE] at he
      | file c => simp only [create_symlink, h]
      | dir cs => simp only [create_symlink, h]
    rw [h1]
    exact ⟨rfl, rfl⟩

/-- Witness for C5: in a genre folder holding a stale symlink `Old` and a
regular file `f.txt`, linking `Old` succeeds and rewrites the symlink,
leaving `f.txt` alone; linking `f.txt` is skipped and changes nothing. -/
theorem c5_create_symlink_conflict_policy_witness :
    ((create_symlink [("Old", Entry.symlink ["t"]), ("f.txt", Entry.file "data")]
        "Action" "Old" ["media", "Movies", "Old"] ["media", "Genres"]).1 = true ∧
      lookupEntry "Old" (create_symlink [("Old", Entry.symlink ["t"]),
        ("f.txt", Entry.file "data")] "Action" "Old" ["media", "Movies", "Old"]
        ["media", "Genres"]).2 =
        some (Entry.symlink (relpathC ["media", "Movies", "Old"]
          (["media", "Genres"] ++ ["Action"])))) ∧
    lookupEntry "f.txt" (create_symlink [("Old", Entry.symlink ["t"]),
        ("f.txt", Entry.file "data")] "Action" "Old" ["media", "Movies", "Old"]
        ["media", "Genres"]).2 =
      lookupEntry "f.txt" [("Old", Entry.symlink ["t"]), ("f.txt", Entry.file "data")] ∧
    (create_symlink [("Old", Entry.symlink ["t"]), ("f.txt", Entry.file "data")]
        "Action" "f.txt" ["media", "Movies", "f.txt"] ["media", "Genres"]).1 = false ∧
    (create_symlink [("Old", Entry.symlink ["t"]), ("f.txt", Entry.file "data")]
        "Action" "f.txt" ["media", "Movies", "f.txt"] ["media", "Genres"]).2 =
      [("Old", Entry.symlink ["t"]), ("f.txt", Entry.file "data")] := by
  have h1 := (c5_create_symlink_conflict_policy
    [("Old", Entry.symlink ["t"]), ("f.txt", Entry.file "data")]
    "Action" "Old" ["media", "Movies", "Old"] ["media", "Genres"]).1 ["t"] rfl
  have h2 := (c5_create_symlink_conflict_policy
    [("Old", Entry.symlink ["t"]), ("f.txt", Entry.file "data")]
    "Action" "f.txt" ["media", "Movies", "f.txt"] ["media", "Genres"]).2
    (Entry.file "data") rfl rfl
  exact ⟨⟨h1.1, h1.2.1⟩, h1.2.2 "f.txt" (by decide), h2.1, h2.2⟩

/-! ## Year-marker normalization lemmas (claim C2) -/

theorem dropTrailingSpaces_eq_rdropWhile (cs : List Char) :
    dropTrailingSpaces cs = List.rdropWhile isSpaceChar cs := rfl

theorem yearParenAt_append_of_six_le (xs ys : List Char) (h : 6 ≤ xs.length) :
    yearParenAt (xs ++ ys) = yearParenAt xs := by
  match xs with
  | c0 :: c1 :: c2 :: c3 :: c4 :: c5 :: rest => rfl
  | [] => simp at h
  | [c0] => simp at h
  | [c0, c1] => simp at h
  | [c0, c1, c2] => simp at h
  | [c0, c1, c2, c3] => simp at h
  | [c0, c1, c2, c3, c4] => simp at h

theorem yearParenAt_span_false (r : List Char) (d1 d2 d3 d4 : Char) (v : List Char)
    (hne : r ≠ []) (hlen : r.length ≤ 5) :
    yearParenAt (r ++ '(' :: d1 :: d2 :: d3 :: d4 :: ')' :: v) = false := by
  have hpd : Char.isDigit '(' = false := by decide
  have hpp : (('(' : Char) = ')') = False := by simp
  match r with
  | [] => exact absurd rfl hne
  | [a] => simp [yearParenAt, hpd]
  | [a, b] => simp [yearParenAt, hpd]
  | [a, b, c] => simp [yearParenAt, hpd]
  | [a, b, c, d] => simp [yearParenAt, hpd]
  | [a, b, c, d, e] => simp [yearParenAt, hpp]
  | a :: b :: c :: d :: e :: f :: rest => simp at hlen

theorem cutYear_eq_self_head (c : Char) (cs : List Char)
    (h : cutYear (c :: cs) = c :: cs) :
    yearParenAt (c :: cs) = false ∧ cutYear cs = cs := by
  by_cases hy : yearParenAt (c :: cs)
  · simp [cutYear, hy] at h
  · simp only [cutYear, hy, if_false, Bool.false_eq_true, List.cons.injEq] at h
    exact ⟨by simp [hy], h.2⟩

theorem cutYear_append_marker (u : List Char) (d1 d2 d3 d4 : Char) (v : List Char)
    (h1 : d1.isDigit) (h2 : d2.isDigit) (h3 : d3.isDigit) (h4 : d4.isDigit)
    (hu : cutYear u = u) :
    cutYear (u ++ '(' :: d1 :: d2 :: d3 :: d4 :: ')' :: v) = u := by
  induction u with
  | nil =>
      have hy : yearParenAt ('(' :: d1 :: d2 :: d3 :: d4 :: ')' :: v) = true := by
        simp [yearParenAt, h1, h2, h3, h4]
      simp [cutYear, hy]
  | cons c rest ih =>
      obtain ⟨hhead, htail⟩ := cutYear_eq_self_head c rest hu
      have hy : yearParenAt (c :: (rest ++ '(' :: d1 :: d2 :: d3 :: d4 :: ')' :: v)) = false := by
        by_cases hlen : 6 ≤ (c :: rest).length
        · have := yearParenAt_append_of_six_le (c :: rest) ('(' :: d1 :: d2 :: d3 :: d4 :: ')' :: v) hlen
          simp only [List.cons_append] at this
          rw [this]
          exact hhead
        · have hlen5 : (c :: rest).length ≤ 5 := by omega
          have := yearParenAt_span_false (c :: rest) d1 d2 d3 d4 v (by simp) hlen5
          simpa using this
      rw [List.cons_append, cutYear, hy]
      simp only [Bool.false_eq_true, if_false]
      rw [ih htail]

theorem subYearRest_append_marker (u : List Char) (d1 d2 d3 d4 : Char) (v : List Char)
    (h1 : d1.isDigit) (h2 : d2.isDigit) (h3 : d3.isDigit) (h4 : d4.isDigit)
    (hu : cutYear u = u) :
    subYearRest (u ++ '(' :: d1 :: d2 :: d3 :: d4 :: ')' :: v) = dropTrailingSpaces u := by
  rw [subYearRest]
  simp only [cutYear_append_marker u d1 d2 d3 d4 v h1 h2 h3 h4 hu]
  have hne : ¬(u.length = (u ++ '(' :: d1 :: d2 :: d3 :: d4 :: ')' :: v).length) := by
    simp [List.length_append]
  rw [if_neg hne]

theorem dropWhile_rdropWhile_comm (p : Char → Bool) (cs : List Char) :
    List.dropWhile p (List.rdropWhile p cs) = List.rdropWhile p (List.dropWhile p cs) := by
  induction cs using List.reverseRecOn with
  | nil => simp [List.rdropWhile]
  | append_singleton l x ih =>
      by_cases hx : p x
      · rw [List.rdropWhile_concat_pos p l x hx, ih, List.dropWhile_append]
        by_cases hE : (List.dropWhile p l).isEmpty
        · rw [if_pos hE]
          have hnil : List.dropWhile p l = [] := by
            cases hD : List.dropWhile p l with
            | nil => rfl
            | cons a as => rw [hD] at hE; simp at hE
          rw [hnil]
          simp [List.dropWhile, hx, List.rdropWhile]
        · rw [if_neg hE]
          rw [List.rdropWhile_concat_pos p _ x hx]
      · rw [List.rdropWhile_concat_neg p l x hx, List.dropWhile_append]
        by_cases hE : (List.dropWhile p l).isEmpty
        · rw [if_pos hE]
          have hone : List.dropWhile p [x] = [x] := by simp [List.dropWhile, hx]
          have hxx : List.rdropWhile p [x] = [x] :=
            List.rdropWhile_eq_self_iff.mpr (fun _ => by simpa using hx)
          rw [hone, hxx]
        · rw [if_neg hE]
          rw [List.rdropWhile_concat_neg p _ x hx]

theorem stripChars_dropTrailingSpaces (cs : List Char) :
    stripChars (dropTrailingSpaces cs) = stripChars cs := by
  rw [stripChars, stripChars, dropTrailingSpaces_eq_rdropWhile,
    dropTrailingSpaces_eq_rdropWhile, dropTrailingSpaces_eq_rdropWhile,
    dropWhile_rdropWhile_comm]
  exact List.rdropWhile_idempotent _ _

theorem removePunct_append (a b : List Char) :
    removePunct (a ++ b) = removePunct a ++ removePunct b :=
  List.filter_append _ _

theorem removePunct_digit_cons (d : Char) (hd : d.isDigit = true) (cs : List Char) :
    removePunct (d :: cs) = d :: removePunct cs := by
  simp [removePunct, List.filter_cons, isWordChar, Char.isAlphanum, hd]

theorem removePunct_lparen_cons (cs : List Char) :
    removePunct ('(' :: cs) = removePunct cs := by
  have h : (isWordChar '(' || isSpaceChar '(') = false := by decide
  simp [removePunct, List.filter_cons, h]

theorem removePunct_rparen_cons (cs : List Char) :
    removePunct (')' :: cs) = removePunct cs := by
  have h : (isWordChar ')' || isSpaceChar ')') = false := by decide
  simp [removePunct, List.filter_cons, h]

/-- C2, counterexample: the two normalizations are not identical, and a
catalog item name containing a `(YYYY)` marker does not get that marker
stripped.  For the catalog name "Inception (2010)" only the parentheses are
removed (as punctuation) and the year digits survive, while the same string
used as a local folder name loses the whole marker. -/
theorem c2_normalization_counterexample :
    cleanItemName "Inception (2010)" = "inception 2010".toList ∧
    cleanLocalName "Inception (2010)" = "inception".toList ∧
    cleanItemName "Inception (2010)" ≠ cleanLocalName "Inception (2010)" :=
  ⟨by decide, by decide, by decide⟩

/-- C2, amended: before scoring, the local folder name is normalized by
lower-casing, dropping everything from the first `(YYYY)` marker on
(with the whitespace run before it), stripping, and removing punctuation;
a catalog item name is normalized by lower-casing and removing punctuation
only — a `(YYYY)` marker in a catalog name is not stripped: its parentheses
go as punctuation and its four digits survive in place. -/
theorem c2_normalization_amended (s : String) (u : List Char) (d1 d2 d3 d4 : Char)
    (v : List Char)
    (hs : toLowerChars s.toList = u ++ '(' :: d1 :: d2 :: d3 :: d4 :: ')' :: v)
    (h1 : d1.isDigit) (h2 : d2.isDigit) (h3 : d3.isDigit) (h4 : d4.isDigit)
    (hu : cutYear u = u) :
    cleanItemName s = removePunct u ++ d1 :: d2 :: d3 :: d4 :: removePunct v ∧
    cleanLocalName s = removePunct (stripChars u) := by
  constructor
  · rw [cleanItemName, hs, removePunct_append, removePunct_lparen_cons,
      removePunct_digit_cons d1 h1, removePunct_digit_cons d2 h2,
      removePunct_digit_cons d3 h3, removePunct_digit_cons d4 h4,
      removePunct_rparen_cons]
  · rw [cleanLocalName, hs,
      subYearRest_append_marker u d1 d2 d3 d4 v h1 h2 h3 h4 hu,
      stripChars_dropTrailingSpaces]

/-- Witness for C2 (amended), at "The Matrix (1999)": the catalog
normalization keeps the digits (`the matrix 1999`), the local normalization
drops the marker (`the matrix`). -/
theorem c2_normalization_amended_witness :
    cleanItemName "The Matrix (1999)" =
      removePunct "the matrix ".toList ++
        '1' :: '9' :: '9' :: '9' :: removePunct [] ∧
    cleanLocalName "The Matrix (1999)" = removePunct (stripChars "the matrix ".toList) :=
  c2_normalization_amended "The Matrix (1999)" "the matrix ".toList '1' '9' '9' '9' []
    (by decide) (by decide) (by decide) (by decide) (by decide) (by decide)

/-! ## Matcher lemmas (claim C1) -/

theorem find_matching_go_no_update (ln : String) (mv : Bool) (l : List CatalogItem)
    (h : ∀ it ∈ l, typeWanted mv it = true → similarity_score ln it ≤ 40) :
    ∀ acc, find_matching_go ln mv l acc = acc := by
  induction l with
  | nil => intro acc; rfl
  | cons item rest ih =>
      intro acc
      obtain ⟨bm, bs⟩ := acc
      have ihr := ih (fun it hit htt => h it (List.mem_cons_of_mem _ hit) htt)
      by_cases ht : typeWanted mv item = true
      · have hs : similarity_score ln item ≤ 40 := h item (List.mem_cons_self _ _) ht
        have hno : ¬(bs < similarity_score ln item ∧ 40 < similarity_score ln item) :=
          fun hc => absurd hc.2 (not_lt.mpr hs)
        rw [find_matching_go, if_pos ht]
        simp only [if_neg hno]
        exact ihr (bm, bs)
      · rw [find_matching_go, if_neg ht]
        exact ihr (bm, bs)

theorem find_matching_go_spec (ln : String) (mv : Bool) (l : List CatalogItem)
    (bm : Option CatalogItem) (bs : ℚ) :
    (find_matching_go ln mv l (bm, bs) = (bm, bs) ∧
      ∀ it ∈ l, typeWanted mv it = true →
        (similarity_score ln it ≤ bs ∨ similarity_score ln it ≤ 40)) ∨
    (∃ l1 it l2, l = l1 ++ it :: l2 ∧ typeWanted mv it = true ∧
      find_matching_go ln mv l (bm, bs) = (some it, similarity_score ln it) ∧
      40 < similarity_score ln it ∧ bs < similarity_score ln it ∧
      (∀ x ∈ l1, typeWanted mv x = true →
        (similarity_score ln x < similarity_score ln it ∨ similarity_score ln x ≤ 40)) ∧
      (∀ x ∈ l2, typeWanted mv x = true →
        (similarity_score ln x ≤ similarity_score ln it ∨ similarity_score ln x ≤ 40))) := by
  induction l generalizing bm bs with
  | nil => exact Or.inl ⟨rfl, by simp⟩
  | cons item rest ih =>
      by_cases ht : typeWanted mv item = true
      · by_cases hup : bs < similarity_score ln item ∧ 40 < similarity_score ln item
        · have hstep : find_matching_go ln mv (item :: rest) (bm, bs) =
              find_matching_go ln mv rest (some item, similarity_score ln item) := by
            rw [find_matching_go, if_pos ht]
            simp only [if_pos hup]
          rcases ih (some item) (similarity_score ln item) with ⟨heq, hall⟩ |
            ⟨l1, it, l2, heq, ht', hres, h40, hbs, hl1, hl2⟩
          · right
            exact ⟨[], item, rest, rfl, ht, by rw [hstep, heq], hup.2, hup.1, by simp, hall⟩
          · right
            refine ⟨item :: l1, it, l2, by simp [heq], ht', by rw [hstep, hres], h40,
              lt_trans hup.1 hbs, ?_, hl2⟩
            intro x hx htx
            rcases List.mem_cons.mp hx with hx1 | hx2
            · subst hx1; exact Or.inl hbs
            · exact hl1 x hx2 htx
        · have hstep : find_matching_go ln mv (item :: rest) (bm, bs) =
              find_matching_go ln mv rest (bm, bs) := by
            rw [find_matching_go, if_pos ht]
            simp only [if_neg hup]
          have hor : similarity_score ln item ≤ bs ∨ similarity_score ln item ≤ 40 := by
            rcases not_and_or.mp hup with h | h
            · exact Or.inl (not_lt.mp h)
            · exact Or.inr (not_lt.mp h)
          rcases ih bm bs with ⟨heq, hall⟩ |
            ⟨l1, it, l2, heq, ht', hres, h40, hbs, hl1, hl2⟩
          · left
            refine ⟨by rw [hstep, heq], ?_⟩
            intro x hx htx
            rcases List.mem_cons.mp hx with hx1 | hx2
            · subst hx1; exact hor
            · exact hall x hx2 htx
          · right
            refine ⟨item :: l1, it, l2, by simp [heq], ht', by rw [hstep, hres], h40, hbs,
              ?_, hl2⟩
            intro x hx htx
            rcases List.mem_cons.mp hx with hx1 | hx2
            · subst hx1
              rcases hor with h | h
              · exact Or.inl (lt_of_le_of_lt h hbs)
              · exact Or.inr h
            · exact hl1 x hx2 htx
      · have hstep : find_matching_go ln mv (item :: rest) (bm, bs) =
            find_matching_go ln mv rest (bm, bs) := by
          rw [find_matching_go, if_neg ht]
        rcases ih bm bs with ⟨heq, hall⟩ |
          ⟨l1, it, l2, heq, ht', hres, h40, hbs, hl1, hl2⟩
        · left
          refine ⟨by rw [hstep, heq], ?_⟩
          intro x hx htx
          rcases List.mem_cons.mp hx with hx1 | hx2
          · subst hx1; exact absurd htx ht
          · exact hall x hx2 htx
        · right
          refine ⟨item :: l1, it, l2, by simp [heq], ht', by rw [hstep, hres], h40, hbs,
            ?_, hl2⟩
          intro x hx htx
          rcases List.mem_cons.mp hx with hx1 | hx2
          · subst hx1; exact absurd htx ht
          · exact hl1 x hx2 htx

/-- C1: the matcher'selection rule.  When every candidate of the requested
type scores at most 40, no match is returned and processing the local entry
leaves the genre tree unchanged (no symlink is created for it).  When some
candidate of the requested type scores strictly above 40, a match is
returned.  Any returned match is a candidate of the requested type scoring
strictly above 40, every candidate before it in catalog order scores
strictly less (so on a tie the first-seen candidate wins) and every
candidate after it scores at most its score — it is the highest-scoring
candidate. -/
theorem c1_matcher_best_candidate (local_name : String) (items : List CatalogItem)
    (is_movie : Bool) :
    ((∀ it ∈ items, typeWanted is_movie it = true →
        similarity_score local_name it ≤ 40) →
      find_matching_jellyfin_item local_name items is_movie = none ∧
      ∀ (cmp gdc : List String) (root : List (String × Entry)) (d : Bool),
        processMediaEntry items cmp gdc is_movie root ⟨local_name, d⟩ = root) ∧
    ((∃ it ∈ items, typeWanted is_movie it = true ∧
        40 < similarity_score local_name it) →
      ∃ best, find_matching_jellyfin_item local_name items is_movie = some best) ∧
    (∀ it, find_matching_jellyfin_item local_name items is_movie = some it →
      it ∈ items ∧ typeWanted is_movie it = true ∧
      40 < similarity_score local_name it ∧
      ∃ l1 l2, items = l1 ++ it :: l2 ∧
        (∀ x ∈ l1, typeWanted is_movie x = true →
          similarity_score local_name x < similarity_score local_name it) ∧
        (∀ x ∈ l2, typeWanted is_movie x = true →
          similarity_score local_name x ≤ similarity_score local_name it)) := by
  refine ⟨?_, ?_, ?_⟩
  · intro h
    have hnone : find_matching_jellyfin_item local_name items is_movie = none := by
      rw [find_matching_jellyfin_item, find_matching_go_no_update local_name is_movie items h]
    refine ⟨hnone, ?_⟩
    intro cmp gdc root d
    cases d with
    | false => rfl
    | true => simp [processMediaEntry, hnone]
  · rintro ⟨it, hmem, hty, hsc⟩
    rcases find_matching_go_spec local_name is_movie items none 0 with ⟨heq, hall⟩ |
      ⟨l1, it', l2, heq, ht', hres, h40, hbs, hl1, hl2⟩
    · rcases hall it hmem hty with h0 | h0
      · exact absurd hsc (not_lt.mpr (le_trans h0 (by norm_num)))
      · exact absurd hsc (not_lt.mpr h0)
    · exact ⟨it', by rw [find_matching_jellyfin_item, hres]⟩
  · intro it hit
    rcases find_matching_go_spec local_name is_movie items none 0 with ⟨heq, _⟩ |
      ⟨l1, it', l2, heq, ht', hres, h40, _, hl1, hl2⟩
    · rw [find_matching_jellyfin_item, heq] at hit
      simp at hit
    · rw [find_matching_jellyfin_item, hres] at hit
      simp only [Option.some.injEq] at hit
      subst hit
      refine ⟨by simp [heq], ht', h40, l1, l2, heq, ?_, ?_⟩
      · intro x hx htx
        rcases hl1 x hx htx with h | h
        · exact h
        · exact lt_of_le_of_lt h h40
      · intro x hx htx
        rcases hl2 x hx htx with h | h
        · exact h
        · exact le_of_lt (lt_of_le_of_lt h h40)

theorem similarity_score_of_exact_name (ln : String) (item : CatalogItem)
    (h : cleanLocalName ln = cleanItemName item.Name) :
    similarity_score ln item =
      100 + (match localYearOf ln, itemYearOf item with
             | some ly, some iy => if ly = iy then (20 : ℚ) else 0
             | _, _ => 0) := by
  simp only [similarity_score, if_pos h]

theorem similarity_score_inception :
    similarity_score "Inception (2010)" inceptionItem = 120 := by
  rw [similarity_score_of_exact_name _ _ (by decide)]
  have hly : localYearOf "Inception (2010)" = some ['2', '0', '1', '0'] := by decide
  have hiy : itemYearOf inceptionItem = some ['2', '0', '1', '0'] := by decide
  rw [hly, hiy]
  norm_num

theorem similarity_score_inception_sequel :
    similarity_score "Inception (2010)" inceptionSequel = 50 := by
  have hne : ¬(cleanLocalName "Inception (2010)" = cleanItemName inceptionSequel.Name) := by
    decide
  have hsub : (hasSub (cleanItemName inceptionSequel.Name)
      (cleanLocalName "Inception (2010)") ||
    hasSub (cleanLocalName "Inception (2010)")
      (cleanItemName inceptionSequel.Name)) = true := by decide
  have hly : localYearOf "Inception (2010)" = some ['2', '0', '1', '0'] := by decide
  have hiy : itemYearOf inceptionSequel = some ['2', '0', '1', '2'] := by decide
  simp only [similarity_score, if_neg hne, hsub, if_true, hly, hiy]
  norm_num
  decide

theorem find_matching_inception :
    find_matching_jellyfin_item "Inception (2010)" inceptionCatalog true =
      some inceptionItem := by
  have hty1 : typeWanted true inceptionItem = true := by decide
  have hty2 : typeWanted true inceptionSequel = true := by decide
  rw [find_matching_jellyfin_item, inceptionCatalog, find_matching_go, if_pos hty1]
  simp only [similarity_score_inception]
  rw [if_pos (show (0 : ℚ) < 120 ∧ (40 : ℚ) < 120 by norm_num)]
  rw [find_matching_go, if_pos hty2]
  simp only [similarity_score_inception_sequel]
  rw [if_neg (show ¬((120 : ℚ) < 50 ∧ (40 : ℚ) < 50) by norm_num)]
  rw [find_matching_go]

/-- Witness for C1: with an empty catalog nothing matches and processing
changes nothing; on the spec's example, "Inception (2010)" has a candidate
scoring above 40, so a match is returned, and the returned match is the
first catalog entry "Inception" with score 120 > 40, not the second. -/
theorem c1_matcher_best_candidate_witness :
    find_matching_jellyfin_item "zzz" [] true = none ∧
    processMediaEntry [] ["media", "Movies"] ["media", "Genres"] true []
      ⟨"zzz", true⟩ = [] ∧
    (∃ best, find_matching_jellyfin_item "Inception (2010)" inceptionCatalog true =
      some best) ∧
    find_matching_jellyfin_item "Inception (2010)" inceptionCatalog true =
      some inceptionItem ∧
    40 < similarity_score "Inception (2010)" inceptionItem := by
  have h1 := (c1_matcher_best_candidate "zzz" [] true).1 (by simp)
  have h2 := (c1_matcher_best_candidate "Inception (2010)" inceptionCatalog true).2.1
    ⟨inceptionItem, by simp [inceptionCatalog], by decide,
      by rw [similarity_score_inception]; norm_num⟩
  have h3 := (c1_matcher_best_candidate "Inception (2010)" inceptionCatalog true).2.2
    inceptionItem find_matching_inception
  exact ⟨h1.1, h1.2 ["media", "Movies"] ["media", "Genres"] [] true, h2,
    find_matching_inception, h3.2.2.1⟩

/-! ## Genre-folder lemmas (claim C8) -/

theorem lookupEntry_append_left (n : String) (es xs : List (String × Entry)) (e : Entry)
    (h : lookupEntry n es = some e) :
    lookupEntry n (es ++ xs) = some e := by
  induction es with
  | nil => simp [lookupEntry] at h
  | cons head tail ih =>
      obtain ⟨m, e0⟩ := head
      by_cases hm : m = n
      · simp only [lookupEntry, if_pos hm] at h
        simp only [List.cons_append, lookupEntry, if_pos hm]
        exact h
      · simp only [lookupEntry, if_neg hm] at h
        simp only [List.cons_append, lookupEntry, if_neg hm]
        exact ih h

theorem lookupEntry_append_right (n : String) (es xs : List (String × Entry))
    (h : lookupEntry n es = none) :
    lookupEntry n (es ++ xs) = lookupEntry n xs := by
  induction es with
  | nil => simp
  | cons head tail ih =>
      obtain ⟨m, e0⟩ := head
      by_cases hm : m = n
      · simp [lookupEntry, hm] at h
      · simp only [lookupEntry, if_neg hm] at h
        simp only [List.cons_append, lookupEntry, if_neg hm]
        exact ih h

theorem lookupEntry_append_isSome (n : String) (es xs : List (String × Entry)) :
    (lookupEntry n (es ++ xs)).isSome = true ↔
      (lookupEntry n es).isSome = true ∨ (lookupEntry n xs).isSome = true := by
  cases h : lookupEntry n es with
  | none => rw [lookupEntry_append_right n es xs h]; simp [h]
  | some e => rw [lookupEntry_append_left n es xs e h]; simp [h]

theorem ensure_fold_lookup_iff (gs : List String) (es : List (String × Entry))
    (name : String) :
    (lookupEntry name (gs.foldl ensureGenreStep es)).isSome = true ↔
      ((lookupEntry name es).isSome = true ∨
        ∃ g ∈ gs, g ≠ "" ∧ sanitizeGenre g ≠ "" ∧ sanitizeGenre g = name) := by
  induction gs generalizing es with
  | nil => simp
  | cons g rest ih =>
      rw [List.foldl_cons, ih]
      constructor
      · rintro (h | ⟨g0, hg0, hprop⟩)
        · rw [ensureGenreStep] at h
          by_cases hg : g = ""
          · rw [if_pos hg] at h
            exact Or.inl h
          · rw [if_neg hg] at h
            by_cases hc : sanitizeGenre g = ""
            · rw [if_pos hc] at h
              exact Or.inl h
            · rw [if_neg hc] at h
              by_cases hp : (lookupEntry (sanitizeGenre g) es).isSome = true
              · rw [if_pos hp] at h
                exact Or.inl h
              · rw [if_neg hp] at h
                rcases (lookupEntry_append_isSome name es _).mp h with h1 | h1
                · exact Or.inl h1
                · simp only [lookupEntry] at h1
                  by_cases he : sanitizeGenre g = name
                  · exact Or.inr ⟨g, List.mem_cons_self _ _, hg, hc, he⟩
                  · rw [if_neg he] at h1
                    simp [lookupEntry] at h1
        · exact Or.inr ⟨g0, List.mem_cons_of_mem _ hg0, hprop⟩
      · rintro (h | ⟨g0, hg0, hne, hcne, hname⟩)
        · left
          rw [ensureGenreStep]
          by_cases hg : g = ""
          · rw [if_pos hg]; exact h
          · rw [if_neg hg]
            by_cases hc : sanitizeGenre g = ""
            · rw [if_pos hc]; exact h
            · rw [if_neg hc]
              by_cases hp : (lookupEntry (sanitizeGenre g) es).isSome = true
              · rw [if_pos hp]; exact h
              · rw [if_neg hp]
                exact (lookupEntry_append_isSome name es _).mpr (Or.inl h)
        · rcases List.mem_cons.mp hg0 with hg1 | hg1
          · subst hg1
            left
            rw [ensureGenreStep, if_neg hne, if_neg hcne]
            by_cases hp : (lookupEntry (sanitizeGenre g0) es).isSome = true
            · rw [if_pos hp, ← hname]
              exact hp
            · rw [if_neg hp]
              refine (lookupEntry_append_isSome name es _).mpr (Or.inr ?_)
              simp [lookupEntry, hname]
          · exact Or.inr ⟨g0, hg1, hne, hcne, hname⟩

theorem ensure_fold_append_shape (gs : List String) (es : List (String × Entry)) :
    ∃ new, gs.foldl ensureGenreStep es = es ++ new ∧
      ∀ x ∈ new, x.2 = Entry.dir [] ∧
        ∃ g ∈ gs, g ≠ "" ∧ sanitizeGenre g = x.1 := by
  induction gs generalizing es with
  | nil => exact ⟨[], by simp, by simp⟩
  | cons g rest ih =>
      rw [List.foldl_cons]
      by_cases hg : g = ""
      · rw [show ensureGenreStep es g = es from by rw [ensureGenreStep, if_pos hg]]
        rcases ih es with ⟨new, hnew, hprop⟩
        exact ⟨new, hnew, fun x hx =>
          ⟨(hprop x hx).1, (hprop x hx).2.imp
            (fun g0 h => ⟨List.mem_cons_of_mem _ h.1, h.2⟩)⟩⟩
      · by_cases hc : sanitizeGenre g = ""
        · rw [show ensureGenreStep es g = es from by
            rw [ensureGenreStep, if_neg hg, if_pos hc]]
          rcases ih es with ⟨new, hnew, hprop⟩
          exact ⟨new, hnew, fun x hx =>
            ⟨(hprop x hx).1, (hprop x hx).2.imp
              (fun g0 h => ⟨List.mem_cons_of_mem _ h.1, h.2⟩)⟩⟩
        · by_cases hp : (lookupEntry (sanitizeGenre g) es).isSome = true
          · rw [show ensureGenreStep es g = es from by
              rw [ensureGenreStep, if_neg hg, if_neg hc, if_pos hp]]
            rcases ih es with ⟨new, hnew, hprop⟩
            exact ⟨new, hnew, fun x hx =>
              ⟨(hprop x hx).1, (hprop x hx).2.imp
                (fun g0 h => ⟨List.mem_cons_of_mem _ h.1, h.2⟩)⟩⟩
          · rw [show ensureGenreStep es g = es ++ [(sanitizeGenre g, Entry.dir [])] from by
              rw [ensureGenreStep, if_neg hg, if_neg hc, if_neg hp]]
            rcases ih (es ++ [(sanitizeGenre g, Entry.dir [])]) with ⟨new, hnew, hprop⟩
            refine ⟨(sanitizeGenre g, Entry.dir []) :: new, by simpa using hnew, ?_⟩
            intro x hx
            rcases List.mem_cons.mp hx with hx1 | hx1
            · subst hx1
              exact ⟨rfl, g, List.mem_cons_self _ _, hg, rfl⟩
            · exact ⟨(hprop x hx1).1, (hprop x hx1).2.imp
                (fun g0 h => ⟨List.mem_cons_of_mem _ h.1, h.2⟩)⟩

theorem mem_collectGenres (items : List CatalogItem) (g : String) :
    g ∈ collectGenres items ↔ ∃ item ∈ items, g ∈ item.Genres := by
  have haux : ∀ (l : List CatalogItem) (acc : List String),
      g ∈ l.foldl (fun acc it => acc ++ it.Genres) acc ↔
        g ∈ acc ∨ ∃ item ∈ l, g ∈ item.Genres := by
    intro l
    induction l with
    | nil => simp
    | cons it rest ih =>
        intro acc
        rw [List.foldl_cons, ih]
        simp [List.mem_append, or_assoc]
  rw [collectGenres, haux]
  simp

theorem mem_sortedGenres (items : List CatalogItem) (g : String) :
    g ∈ sortedGenres items ↔ ∃ item ∈ items, g ∈ item.Genres := by
  rw [sortedGenres, List.mem_insertionSort, List.mem_dedup, mem_collectGenres]

/-- C8, counterexample: the genre string " " is a non-empty genre appearing
in the catalog, but no folder is created for it: its sanitized form is the
empty string, and `Path(genres_dir) / ""` is the (existing) genre root
itself, so `ensure_genre_folders` creates nothing at all on this catalog —
the created set is not the set of all sanitized non-empty genre strings. -/
theorem c8_ensure_genre_folders_counterexample :
    ensure_genre_folders [blankGenreItem] none = [] ∧
    " " ∈ blankGenreItem.Genres ∧ (" " : String) ≠ "" ∧ sanitizeGenre " " = "" :=
  ⟨rfl, by simp [blankGenreItem], by decide, by decide⟩

/-- C8, amended: after a run, a name exists under the genre root exactly
when it already existed before or is the sanitized form of some genre
string of the catalog that is non-empty and whose sanitized form is
non-empty; creating an existing folder changes nothing (the operation is
total and only appends), nothing is ever deleted — the previous listing
survives as a prefix — and every added entry is an empty directory named
after a sanitized catalog genre. -/
theorem c8_ensure_genre_folders_amended (items : List CatalogItem)
    (root : Option (List (String × Entry))) :
    (∀ name : String,
      (lookupEntry name (ensure_genre_folders items root)).isSome = true ↔
        ((lookupEntry name (root.getD [])).isSome = true ∨
          ∃ g, (∃ item ∈ items, g ∈ item.Genres) ∧ g ≠ "" ∧
            sanitizeGenre g ≠ "" ∧ sanitizeGenre g = name)) ∧
    (∃ new, ensure_genre_folders items root = root.getD [] ++ new ∧
      ∀ x ∈ new, x.2 = Entry.dir [] ∧
        ∃ g, (∃ item ∈ items, g ∈ item.Genres) ∧ g ≠ "" ∧ sanitizeGenre g = x.1) := by
  have hrw : ensure_genre_folders items root =
      (sortedGenres items).foldl ensureGenreStep (root.getD []) := by
    cases root <;> rfl
  constructor
  · intro name
    rw [hrw, ensure_fold_lookup_iff]
    simp only [mem_sortedGenres]
  · rcases ensure_fold_append_shape (sortedGenres items) (root.getD []) with ⟨new, h1, h2⟩
    refine ⟨new, by rw [hrw]; exact h1, ?_⟩
    intro x hx
    refine ⟨(h2 x hx).1, ?_⟩
    rcases (h2 x hx).2 with ⟨g, hmem, hne, hsan⟩
    exact ⟨g, (mem_sortedGenres items g).mp hmem, hne, hsan⟩

/-- Witness for C8 (amended): on a catalog with genres Action and Drama and
a pre-existing folder `Old`, the folder `Action` exists after the run and
`Old` is untouched. -/
theorem c8_ensure_genre_folders_amended_witness :
    (lookupEntry "Action" (ensure_genre_folders [dualGenreItem]
        (some [("Old", Entry.dir [])]))).isSome = true ∧
    lookupEntry "Old" (ensure_genre_folders [dualGenreItem]
        (some [("Old", Entry.dir [])])) = some (Entry.dir []) := by
  have h := c8_ensure_genre_folders_amended [dualGenreItem] (some [("Old", Entry.dir [])])
  constructor
  · exact (h.1 "Action").mpr (Or.inr ⟨"Action",
      ⟨dualGenreItem, by simp, by simp [dualGenreItem]⟩, by decide, by decide, rfl⟩)
  · rcases h.2 with ⟨new, hnew, _⟩
    rw [hnew]
    exact lookupEntry_append_left _ _ _ _ (by simp [lookupEntry])

/-! ## Clearing and linking interaction (claim C3) -/

theorem clearEntries_append_symlink (es : List (String × Entry)) (n : String)
    (t : List String) :
    clearEntries (es ++ [(n, Entry.symlink t)]) = clearEntries es := by
  induction es with
  | nil => simp [clearEntries]
  | cons head tail ih =>
      obtain ⟨m, e⟩ := head
      cases e <;> simp only [List.cons_append, clearEntries, ih]

theorem clearEntries_replace_symlink (es : List (String × Entry)) (n : String)
    (t t' : List String) (h : lookupEntry n es = some (.symlink t)) :
    clearEntries (replaceEntry n (Entry.symlink t') es) = clearEntries es := by
  induction es with
  | nil => simp [lookupEntry] at h
  | cons head tail ih =>
      obtain ⟨m, e⟩ := head
      by_cases hm : m = n
      · simp only [lookupEntry, if_pos hm] at h
        cases h
        simp [replaceEntry, hm, clearEntries]
      · simp only [lookupEntry, if_neg hm] at h
        cases e <;> simp only [replaceEntry, if_neg hm, clearEntries] <;> rw [ih h]

theorem clearEntries_replace_dir (es : List (String × Entry)) (g : String)
    (cs cs' : List (String × Entry)) (h : lookupEntry g es = some (.dir cs))
    (hcs : clearEntries cs' = clearEntries cs) :
    clearEntries (replaceEntry g (Entry.dir cs') es) = clearEntries es := by
  induction es with
  | nil => simp [lookupEntry] at h
  | cons head tail ih =>
      obtain ⟨m, e⟩ := head
      by_cases hm : m = g
      · simp only [lookupEntry, if_pos hm] at h
        cases h
        simp [replaceEntry, hm, clearEntries, hcs]
      · simp only [lookupEntry, if_neg hm] at h
        cases e <;> simp only [replaceEntry, if_neg hm, clearEntries, ih h]

theorem clearEntries_create_symlink (children : List (String × Entry))
    (g n : String) (tgt gdc : List String) :
    clearEntries (create_symlink children g n tgt gdc).2 = clearEntries children := by
  cases hl : lookupEntry n children with
  | none =>
      have : (create_symlink children g n tgt gdc).2 =
          children ++ [(n, Entry.symlink (relpathC tgt (gdc ++ [g])))] := by
        simp only [create_symlink, hl]
      rw [this, clearEntries_append_symlink]
  | some e =>
      cases e with
      | symlink t =>
          have : (create_symlink children g n tgt gdc).2 =
              replaceEntry n (Entry.symlink (relpathC tgt (gdc ++ [g]))) children := by
            simp only [create_symlink, hl]
          rw [this, clearEntries_replace_symlink children n t _ hl]
      | file c =>
          have : (create_symlink children g n tgt gdc).2 = children := by
            simp only [create_symlink, hl]
          rw [this]
      | dir cs =>
          have : (create_symlink children g n tgt gdc).2 = children := by
            simp only [create_symlink, hl]
          rw [this]

theorem clearEntries_linkGenreStep (en : String) (cmp gdc : List String)
    (root : List (String × Entry)) (genre : String) :
    clearEntries (linkGenreStep en cmp gdc root genre) = clearEntries root := by
  rw [linkGenreStep]
  cases hl : lookupEntry (sanitizeGenre genre) root with
  | none => rfl
  | some e =>
      cases e with
      | symlink t => rfl
      | file c => rfl
      | dir cs =>
          simp only
          exact clearEntries_replace_dir root (sanitizeGenre genre) cs _ hl
            (clearEntries_create_symlink cs (sanitizeGenre genre) en _ gdc)

theorem clearEntries_foldl_link (en : String) (cmp gdc : List String)
    (gs : List String) (root : List (String × Entry)) :
    clearEntries (gs.foldl (linkGenreStep en cmp gdc) root) = clearEntries root := by
  induction gs generalizing root with
  | nil => rfl
  | cons g rest ih =>
      rw [List.foldl_cons, ih, clearEntries_linkGenreStep]

theorem clearEntries_processMediaEntry (items : List CatalogItem)
    (cmp gdc : List String) (mv : Bool) (root : List (String × Entry))
    (me : MediaEntry) :
    clearEntries (processMediaEntry items cmp gdc mv root me) = clearEntries root := by
  rw [processMediaEntry]
  cases hd : (!me.isDir)
  · simp only [Bool.false_eq_true, if_false]
    cases hf : find_matching_jellyfin_item me.name items mv with
    | none => rfl
    | some item => exact clearEntries_foldl_link me.name cmp gdc _ root
  · simp only [if_true]

theorem clearEntries_process_media_folder (media : Option (List MediaEntry))
    (items : List CatalogItem) (cmp gdc : List String) (mv : Bool)
    (root : List (String × Entry)) :
    clearEntries (process_media_folder media items cmp gdc mv root) =
      clearEntries root := by
  cases media with
  | none => rfl
  | some entries =>
      rw [process_media_folder]
      induction entries generalizing root with
      | nil => rfl
      | cons me rest ih =>
          rw [List.foldl_cons, ih, clearEntries_processMediaEntry]

theorem clearEntries_of_symFree (es : List (String × Entry))
    (h : symFree es = true) : clearEntries es = es := by
  induction es using clearEntries.induct with
  | case1 => simp [clearEntries]
  | case2 n t rest ih => rw [symFree] at h; simp at h
  | case3 n c rest ih =>
      rw [symFree] at h
      rw [clearEntries, ih h]
  | case4 n cs rest ih1 ih2 =>
      rw [symFree, Bool.and_eq_true] at h
      rw [clearEntries, ih1 h.1, ih2 h.2]

theorem symFree_append (a b : List (String × Entry)) :
    symFree (a ++ b) = (symFree a && symFree b) := by
  induction a with
  | nil => simp [symFree]
  | cons head tail ih =>
      obtain ⟨m, e⟩ := head
      cases e <;> simp [symFree, ih, Bool.and_assoc]

theorem symFree_ensure_fold (gs : List String) (es : List (String × Entry))
    (h : symFree es = true) :
    symFree (gs.foldl ensureGenreStep es) = true := by
  induction gs generalizing es with
  | nil => exact h
  | cons g rest ih =>
      rw [List.foldl_cons]
      refine ih _ ?_
      rw [ensureGenreStep]
      by_cases hg : g = ""
      · rw [if_pos hg]; exact h
      · rw [if_neg hg]
        by_cases hc : sanitizeGenre g = ""
        · rw [if_pos hc]; exact h
        · rw [if_neg hc]
          by_cases hp : (lookupEntry (sanitizeGenre g) es).isSome = true
          · rw [if_pos hp]; exact h
          · rw [if_neg hp]
            rw [symFree_append, h]
            simp [symFree]

theorem symFree_ensure_genre_folders (items : List CatalogItem)
    (root : Option (List (String × Entry)))
    (h : symFree (root.getD []) = true) :
    symFree (ensure_genre_folders items root) = true := by
  have hrw : ensure_genre_folders items root =
      (sortedGenres items).foldl ensureGenreStep (root.getD []) := by
    cases root <;> rfl
  rw [hrw]
  exact symFree_ensure_fold _ _ h

theorem ensure_fold_no_op (gs : List String) (es : List (String × Entry))
    (h : ∀ g ∈ gs, g ≠ "" → sanitizeGenre g ≠ "" →
      (lookupEntry (sanitizeGenre g) es).isSome = true) :
    gs.foldl ensureGenreStep es = es := by
  induction gs with
  | nil => rfl
  | cons g rest ih =>
      rw [List.foldl_cons]
      have hstep : ensureGenreStep es g = es := by
        rw [ensureGenreStep]
        by_cases hg : g = ""
        · rw [if_pos hg]
        · rw [if_neg hg]
          by_cases hc : sanitizeGenre g = ""
          · rw [if_pos hc]
          · rw [if_neg hc, if_pos (h g (List.mem_cons_self _ _) hg hc)]
      rw [hstep]
      exact ih (fun g0 hg0 => h g0 (List.mem_cons_of_mem _ hg0))

theorem ensure_genre_folders_idem (items : List CatalogItem)
    (root : Option (List (String × Entry))) :
    ensure_genre_folders items (some (ensure_genre_folders items root)) =
      ensure_genre_folders items root := by
  have hrw : ensure_genre_folders items (some (ensure_genre_folders items root)) =
      (sortedGenres items).foldl ensureGenreStep (ensure_genre_folders items root) := rfl
  rw [hrw]
  refine ensure_fold_no_op _ _ ?_
  intro g hg hne hcne
  have hrw2 : ensure_genre_folders items root =
      (sortedGenres items).foldl ensureGenreStep (root.getD []) := by
    cases root <;> rfl
  rw [hrw2]
  exact (ensure_fold_lookup_iff (sortedGenres items) (root.getD [])
    (sanitizeGenre g)).mpr (Or.inr ⟨g, hg, hne, hcne, rfl⟩)

/-- C3: the full reconcile pipeline (clear existing symlinks, ensure genre
folders, link matched entries) is idempotent for a fixed catalog and fixed
local media tree: the genre-root state — and with it the set of symlinks
(names, genre folders, targets) — after the second run equals the state
after the first run. -/
theorem c3_reconcile_idempotent (env : PipelineEnv)
    (root : Option (List (String × Entry))) :
    runPipeline env (runPipeline env root) = runPipeline env root := by
  have main_eq : ∀ r : Option (List (String × Entry)), runPipeline env r =
      some (if env.include_shows then
          process_media_folder env.shows env.items env.shows_dir_container
            env.genres_dir_container false
            (process_media_folder env.movies env.items env.movies_dir_container
              env.genres_dir_container true
              (ensure_genre_folders env.items (Option.map clearEntries r)))
        else
          process_media_folder env.movies env.items env.movies_dir_container
            env.genres_dir_container true
            (ensure_genre_folders env.items (Option.map clearEntries r))) := by
    intro r
    cases r <;> rfl
  have hsf : symFree (ensure_genre_folders env.items
      (Option.map clearEntries root)) = true := by
    apply symFree_ensure_genre_folders
    cases root with
    | none => simp [symFree]
    | some es => simpa using symFree_clearEntries es
  have hclearT : clearEntries (if env.include_shows then
      process_media_folder env.shows env.items env.shows_dir_container
        env.genres_dir_container false
        (process_media_folder env.movies env.items env.movies_dir_container
          env.genres_dir_container true
          (ensure_genre_folders env.items (Option.map clearEntries root)))
    else
      process_media_folder env.movies env.items env.movies_dir_container
        env.genres_dir_container true
        (ensure_genre_folders env.items (Option.map clearEntries root))) =
      ensure_genre_folders env.items (Option.map clearEntries root) := by
    cases hins : env.include_shows
    · rw [if_neg (by simp [hins])]
      rw [clearEntries_process_media_folder]
      exact clearEntries_of_symFree _ hsf
    · rw [if_pos (by simp [hins])]
      rw [clearEntries_process_media_folder, clearEntries_process_media_folder]
      exact clearEntries_of_symFree _ hsf
  rw [main_eq root, main_eq]
  simp only [Option.map_some']
  rw [hclearT, ensure_genre_folders_idem]

/-! ## Symlink provenance lemmas (claims C4 and C7) -/

theorem lookup_create_symlink_cases (children : List (String × Entry))
    (g n : String) (tgt gdc : List String) (m : String) :
    lookupEntry m (create_symlink children g n tgt gdc).2 = lookupEntry m children ∨
    (m = n ∧ lookupEntry m (create_symlink children g n tgt gdc).2 =
      some (Entry.symlink (relpathC tgt (gdc ++ [g])))) := by
  cases hl : lookupEntry n children with
  | none =>
      have hres : (create_symlink children g n tgt gdc).2 =
          children ++ [(n, Entry.symlink (relpathC tgt (gdc ++ [g])))] := by
        simp only [create_symlink, hl]
      cases hm : lookupEntry m children with
      | none =>
          by_cases hmn : m = n
          · subst hmn
            right
            refine ⟨rfl, ?_⟩
            rw [hres, lookupEntry_append_right _ children _ hm]
            simp [lookupEntry]
          · left
            rw [hres, lookupEntry_append_right _ children _ hm]
            simp only [lookupEntry]
            rw [if_neg (fun h : n = m => hmn h.symm)]
      | some e =>
          left
          rw [hres, lookupEntry_append_left _ children _ e hm]
  | some e =>
      cases e with
      | symlink t0 =>
          have hres : (create_symlink children g n tgt gdc).2 =
              replaceEntry n (Entry.symlink (relpathC tgt (gdc ++ [g]))) children := by
            simp only [create_symlink, hl]
          rw [hres]
          by_cases hmn : m = n
          · subst hmn
            right
            exact ⟨rfl, lookup_replaceEntry_self children m _ (by rw [hl]; rfl)⟩
          · left
            exact lookup_replaceEntry_ne children n m _ hmn
      | file c =>
          left
          have hres : (create_symlink children g n tgt gdc).2 = children := by
            simp only [create_symlink, hl]
          rw [hres]
      | dir cs =>
          left
          have hres : (create_symlink children g n tgt gdc).2 = children := by
            simp only [create_symlink, hl]
          rw [hres]

theorem getPath_symlink_create (children : List (String × Entry)) (g n : String)
    (tgt gdc : List String) :
    ∀ (p : List String) (t : List String),
      getPath (create_symlink children g n tgt gdc).2 p = some (.symlink t) →
      getPath children p = some (.symlink t) ∨
        (p = [n] ∧ t = relpathC tgt (gdc ++ [g]))
  | [], t, h => by simp [getPath] at h
  | [m], t, h => by
      rw [getPath_one] at h ⊢
      rcases lookup_create_symlink_cases children g n tgt gdc m with hc | ⟨hmn, hc⟩
      · left
        rw [← hc]
        exact h
      · rw [hc] at h
        cases h
        right
        exact ⟨by rw [hmn], rfl⟩
  | m :: r :: rest, t, h => by
      rw [getPath_cons] at h ⊢
      rcases lookup_create_symlink_cases children g n tgt gdc m with hc | ⟨hmn, hc⟩
      · left
        rw [← hc]
        exact h
      · rw [hc] at h
        simp at h

theorem getPath_symlink_linkGenreStep (en : String) (cmp gdc : List String)
    (root : List (String × Entry)) (genre : String) (p : List String)
    (t : List String)
    (h : getPath (linkGenreStep en cmp gdc root genre) p = some (.symlink t)) :
    getPath root p = some (.symlink t) ∨
      (p = [sanitizeGenre genre, en] ∧
        t = relpathC (cmp ++ [en]) (gdc ++ [sanitizeGenre genre])) := by
  rw [linkGenreStep] at h
  cases hl : lookupEntry (sanitizeGenre genre) root with
  | none => rw [hl] at h; exact Or.inl h
  | some e =>
      cases e with
      | symlink t0 => rw [hl] at h; exact Or.inl h
      | file c => rw [hl] at h; exact Or.inl h
      | dir cs =>
          rw [hl] at h
          simp only at h
          -- h is about replaceEntry (sanitizeGenre genre) (.dir (create ...).2) root
          rcases p with _ | ⟨m, rest⟩
          · simp [getPath] at h
          · rcases rest with _ | ⟨r, rest'⟩
            · rw [getPath_one] at h
              by_cases hm : m = sanitizeGenre genre
              · rw [hm, lookup_replaceEntry_self root (sanitizeGenre genre) _
                  (by rw [hl]; rfl)] at h
                simp at h
              · rw [lookup_replaceEntry_ne root _ m _ hm] at h
                left
                rw [getPath_one]
                exact h
            · rw [getPath_cons] at h
              by_cases hm : m = sanitizeGenre genre
              · rw [hm, lookup_replaceEntry_self root (sanitizeGenre genre) _
                  (by rw [hl]; rfl)] at h
                simp only at h
                rcases getPath_symlink_create cs (sanitizeGenre genre) en (cmp ++ [en])
                  gdc (r :: rest') t h with hc | ⟨hp, ht⟩
                · left
                  rw [hm, getPath_cons, hl]
                  exact hc
                · right
                  rw [hm, hp]
                  exact ⟨rfl, ht⟩
              · rw [lookup_replaceEntry_ne root _ m _ hm] at h
                left
                rw [getPath_cons]
                exact h

theorem getPath_symlink_foldl_link (en : String) (cmp gdc : List String)
    (gs : List String) (root : List (String × Entry)) (p : List String)
    (t : List String)
    (h : getPath (gs.foldl (linkGenreStep en cmp gdc) root) p = some (.symlink t)) :
    getPath root p = some (.symlink t) ∨
      ∃ genre ∈ gs, p = [sanitizeGenre genre, en] ∧
        t = relpathC (cmp ++ [en]) (gdc ++ [sanitizeGenre genre]) := by
  induction gs generalizing root with
  | nil => exact Or.inl h
  | cons g rest ih =>
      rw [List.foldl_cons] at h
      rcases ih _ h with h1 | ⟨genre, hmem, hp⟩
      · rcases getPath_symlink_linkGenreStep en cmp gdc root g p t h1 with h2 | h2
        · exact Or.inl h2
        · exact Or.inr ⟨g, List.mem_cons_self _ _, h2⟩
      · exact Or.inr ⟨genre, List.mem_cons_of_mem _ hmem, hp⟩

theorem getPath_symlink_processMediaEntry (items : List CatalogItem)
    (cmp gdc : List String) (mv : Bool) (root : List (String × Entry))
    (me : MediaEntry) (p : List String) (t : List String)
    (h : getPath (processMediaEntry items cmp gdc mv root me) p =
      some (.symlink t)) :
    getPath root p = some (.symlink t) ∨
      (me.isDir = true ∧ ∃ item,
        find_matching_jellyfin_item me.name items mv = some item ∧
        ∃ genre ∈ item.Genres.take 5, p = [sanitizeGenre genre, me.name] ∧
          t = relpathC (cmp ++ [me.name]) (gdc ++ [sanitizeGenre genre])) := by
  rw [processMediaEntry] at h
  cases hd : me.isDir with
  | false => rw [hd] at h; exact Or.inl h
  | true =>
      rw [hd] at h
      simp only [Bool.not_true, Bool.false_eq_true, if_false] at h
      cases hf : find_matching_jellyfin_item me.name items mv with
      | none => rw [hf] at h; exact Or.inl h
      | some item =>
          rw [hf] at h
          simp only at h
          rcases getPath_symlink_foldl_link me.name cmp gdc _ root p t h with h1 |
            ⟨genre, hmem, hp⟩
          · exact Or.inl h1
          · exact Or.inr ⟨rfl, item, rfl, genre, hmem, hp⟩

theorem getPath_symlink_process_media_folder (media : Option (List MediaEntry))
    (items : List CatalogItem) (cmp gdc : List String) (mv : Bool)
    (root : List (String × Entry)) (p : List String) (t : List String)
    (h : getPath (process_media_folder media items cmp gdc mv root) p =
      some (.symlink t)) :
    getPath root p = some (.symlink t) ∨
      ∃ entries, media = some entries ∧ ∃ me ∈ entries, me.isDir = true ∧
        ∃ item, find_matching_jellyfin_item me.name items mv = some item ∧
        ∃ genre ∈ item.Genres.take 5, p = [sanitizeGenre genre, me.name] ∧
          t = relpathC (cmp ++ [me.name]) (gdc ++ [sanitizeGenre genre]) := by
  cases media with
  | none => exact Or.inl h
  | some entries =>
      rw [process_media_folder] at h
      have haux : ∀ (l : List MediaEntry) (r : List (String × Entry)),
          getPath (l.foldl (processMediaEntry items cmp gdc mv) r) p =
            some (.symlink t) →
          getPath r p = some (.symlink t) ∨
            ∃ me ∈ l, me.isDir = true ∧
              ∃ item, find_matching_jellyfin_item me.name items mv = some item ∧
              ∃ genre ∈ item.Genres.take 5, p = [sanitizeGenre genre, me.name] ∧
                t = relpathC (cmp ++ [me.name]) (gdc ++ [sanitizeGenre genre]) := by
        intro l
        induction l with
        | nil => exact fun r hh => Or.inl hh
        | cons me rest ih =>
            intro r hh
            rw [List.foldl_cons] at hh
            rcases ih _ hh with h1 | ⟨me0, hmem, hdata⟩
            · rcases getPath_symlink_processMediaEntry items cmp gdc mv r me p t h1
                with h2 | ⟨hd, item, hdata⟩
              · exact Or.inl h2
              · exact Or.inr ⟨me, List.mem_cons_self _ _, hd, item, hdata⟩
            · exact Or.inr ⟨me0, List.mem_cons_of_mem _ hmem, hdata⟩
      rcases haux entries root h with h1 | h1
      · exact Or.inl h1
      · exact Or.inr ⟨entries, rfl, h1⟩

theorem pipeline_symlink_provenance (env : PipelineEnv)
    (root : Option (List (String × Entry))) (T : List (String × Entry))
    (hrun : runPipeline env root = some T) (p : List String) (t : List String)
    (h : getPath T p = some (.symlink t)) :
    ∃ g n, p = [g, n] ∧ CreatedSym env g n t := by
  have main_eq : runPipeline env root =
      some (if env.include_shows then
          process_media_folder env.shows env.items env.shows_dir_container
            env.genres_dir_container false
            (process_media_folder env.movies env.items env.movies_dir_container
              env.genres_dir_container true
              (ensure_genre_folders env.items (Option.map clearEntries root)))
        else
          process_media_folder env.movies env.items env.movies_dir_container
            env.genres_dir_container true
            (ensure_genre_folders env.items (Option.map clearEntries root))) := by
    cases root <;> rfl
  rw [main_eq] at hrun
  have hT := Option.some.inj hrun
  subst hT
  have hsf : symFree (ensure_genre_folders env.items
      (Option.map clearEntries root)) = true := by
    apply symFree_ensure_genre_folders
    cases root with
    | none => simp [symFree]
    | some es => simpa using symFree_clearEntries es
  have hEnoSym : ∀ (t0 : List String), getPath (ensure_genre_folders env.items
      (Option.map clearEntries root)) p ≠ some (.symlink t0) :=
    fun t0 => getPath_symFree_not_symlink p _ hsf t0
  have hmovie : ∀ (t0 : List String),
      getPath (process_media_folder env.movies env.items env.movies_dir_container
        env.genres_dir_container true
        (ensure_genre_folders env.items (Option.map clearEntries root))) p =
        some (.symlink t0) →
      ∃ g n, p = [g, n] ∧ CreatedSym env g n t0 := by
    intro t0 h0
    rcases getPath_symlink_process_media_folder env.movies env.items
      env.movies_dir_container env.genres_dir_container true _ p t0 h0 with h1 |
      ⟨entries, hment, me, hmem, hd, item, hfind, genre, hgmem, hp, ht⟩
    · exact absurd h1 (hEnoSym t0)
    · exact ⟨sanitizeGenre genre, me.name, hp, true, entries, me, item,
        Or.inl ⟨rfl, hment⟩, hmem, hd, rfl, hfind, ⟨genre, hgmem, rfl⟩, by simpa using ht⟩
  cases hins : env.include_shows with
  | false =>
      rw [hins] at h
      simp only [Bool.false_eq_true, if_false] at h
      exact hmovie t h
  | true =>
      rw [hins] at h
      simp only [if_true] at h
      rcases getPath_symlink_process_media_folder env.shows env.items
        env.shows_dir_container env.genres_dir_container false _ p t h with h1 |
        ⟨entries, hment, me, hmem, hd, item, hfind, genre, hgmem, hp, ht⟩
      · exact hmovie t h1
      · exact ⟨sanitizeGenre genre, me.name, hp, false, entries, me, item,
          Or.inr ⟨rfl, hins, hment⟩, hmem, hd, rfl, hfind, ⟨genre, hgmem, rfl⟩,
          by simpa using ht⟩

theorem getPath_nil_entries : ∀ (p : List String), getPath [] p = none
  | [] => rfl
  | [_] => rfl
  | _ :: _ :: _ => rfl

theorem getPath_append_of_some (es xs : List (String × Entry)) :
    ∀ (p : List String) (e : Entry),
      getPath es p = some e → getPath (es ++ xs) p = some e
  | [], e, h => by simp [getPath] at h
  | [n], e, h => by
      rw [getPath_one] at h ⊢
      exact lookupEntry_append_left n es xs e h
  | n :: r :: rest, e, h => by
      rw [getPath_cons] at h ⊢
      cases hl : lookupEntry n es with
      | none => rw [hl] at h; simp at h
      | some e0 =>
          rw [lookupEntry_append_left n es xs e0 hl]
          rw [hl] at h
          exact h

theorem getPath_file_create (children : List (String × Entry)) (g n : String)
    (tgt gdc : List String) :
    ∀ (p : List String) (c : String),
      getPath children p = some (.file c) →
      getPath (create_symlink children g n tgt gdc).2 p = some (.file c) := by
  intro p c h
  cases hl : lookupEntry n children with
  | none =>
      have hres : (create_symlink children g n tgt gdc).2 =
          children ++ [(n, Entry.symlink (relpathC tgt (gdc ++ [g])))] := by
        simp only [create_symlink, hl]
      rw [hres]
      exact getPath_append_of_some children _ p _ h
  | some e =>
      cases e with
      | symlink t0 =>
          have hres : (create_symlink children g n tgt gdc).2 =
              replaceEntry n (Entry.symlink (relpathC tgt (gdc ++ [g]))) children := by
            simp only [create_symlink, hl]
          rw [hres]
          rcases p with _ | ⟨m, rest⟩
          · simp [getPath] at h
          · rcases rest with _ | ⟨r, rest'⟩
            · rw [getPath_one] at h ⊢
              by_cases hm : m = n
              · rw [hm] at h
                rw [hl] at h
                cases h
              · rw [lookup_replaceEntry_ne children n m _ hm]
                exact h
            · rw [getPath_cons] at h ⊢
              by_cases hm : m = n
              · rw [hm, hl] at h
                simp at h
              · rw [lookup_replaceEntry_ne children n m _ hm]
                exact h
      | file c0 =>
          have hres : (create_symlink children g n tgt gdc).2 = children := by
            simp only [create_symlink, hl]
          rw [hres]
          exact h
      | dir cs =>
          have hres : (create_symlink children g n tgt gdc).2 = children := by
            simp only [create_symlink, hl]
          rw [hres]
          exact h

theorem getPath_file_linkGenreStep (en : String) (cmp gdc : List String)
    (root : List (String × Entry)) (genre : String) (p : List String) (c : String)
    (h : getPath root p = some (.file c)) :
    getPath (linkGenreStep en cmp gdc root genre) p = some (.file c) := by
  rw [linkGenreStep]
  cases hl : lookupEntry (sanitizeGenre genre) root with
  | none => exact h
  | some e =>
      cases e with
      | symlink t0 => exact h
      | file c0 => exact h
      | dir cs =>
          simp only
          rcases p with _ | ⟨m, rest⟩
          · simp [getPath] at h
          · rcases rest with _ | ⟨r, rest'⟩
            · rw [getPath_one] at h ⊢
              by_cases hm : m = sanitizeGenre genre
              · rw [hm, hl] at h
                cases h
              · rw [lookup_replaceEntry_ne root _ m _ hm]
                exact h
            · rw [getPath_cons] at h ⊢
              by_cases hm : m = sanitizeGenre genre
              · rw [hm] at h ⊢
                rw [hl] at h
                simp only at h
                rw [lookup_replaceEntry_self root (sanitizeGenre genre) _
                  (by rw [hl]; rfl)]
                simp only
                exact getPath_file_create cs (sanitizeGenre genre) en _ gdc
                  (r :: rest') c h
              · rw [lookup_replaceEntry_ne root _ m _ hm]
                exact h

theorem getPath_file_foldl_link (en : String) (cmp gdc : List String)
    (gs : List String) (root : List (String × Entry)) (p : List String) (c : String)
    (h : getPath root p = some (.file c)) :
    getPath (gs.foldl (linkGenreStep en cmp gdc) root) p = some (.file c) := by
  induction gs generalizing root with
  | nil => exact h
  | cons g rest ih =>
      rw [List.foldl_cons]
      exact ih _ (getPath_file_linkGenreStep en cmp gdc root g p c h)

theorem getPath_file_processMediaEntry (items : List CatalogItem)
    (cmp gdc : List String) (mv : Bool) (root : List (String × Entry))
    (me : MediaEntry) (p : List String) (c : String)
    (h : getPath root p = some (.file c)) :
    getPath (processMediaEntry items cmp gdc mv root me) p = some (.file c) := by
  rw [processMediaEntry]
  cases hd : (!me.isDir)
  · simp only [Bool.false_eq_true, if_false]
    cases hf : find_matching_jellyfin_item me.name items mv with
    | none => exact h
    | some item => exact getPath_file_foldl_link me.name cmp gdc _ root p c h
  · simp only [if_true]
    exact h

theorem getPath_file_process_media_folder (media : Option (List MediaEntry))
    (items : List CatalogItem) (cmp gdc : List String) (mv : Bool)
    (root : List (String × Entry)) (p : List String) (c : String)
    (h : getPath root p = some (.file c)) :
    getPath (process_media_folder media items cmp gdc mv root) p =
      some (.file c) := by
  cases media with
  | none => exact h
  | some entries =>
      rw [process_media_folder]
      induction entries generalizing root with
      | nil => exact h
      | cons me rest ih =>
          rw [List.foldl_cons]
          exact ih _ (getPath_file_processMediaEntry items cmp gdc mv root me p c h)

theorem getPath_file_ensure (items : List CatalogItem)
    (root : Option (List (String × Entry))) (p : List String) (c : String)
    (h : getPath (root.getD []) p = some (.file c)) :
    getPath (ensure_genre_folders items root) p = some (.file c) := by
  rcases ensure_fold_append_shape (sortedGenres items) (root.getD []) with ⟨new, h1, _⟩
  have hrw : ensure_genre_folders items root =
      (sortedGenres items).foldl ensureGenreStep (root.getD []) := by
    cases root <;> rfl
  rw [hrw, h1]
  exact getPath_append_of_some _ new p _ h

theorem find_matching_mem (ln : String) (items : List CatalogItem) (mv : Bool)
    (it : CatalogItem)
    (h : find_matching_jellyfin_item ln items mv = some it) : it ∈ items := by
  rcases find_matching_go_spec ln mv items none 0 with ⟨heq, _⟩ |
    ⟨l1, it', l2, heq, _, hres, _⟩
  · rw [find_matching_jellyfin_item, heq] at h
    simp at h
  · rw [find_matching_jellyfin_item, hres] at h
    simp only [Option.some.injEq] at h
    subst h
    simp [heq]

/-- C4: after a full reconcile run, every symlink under the genre root sits
directly inside a genre folder and points at a local entry that the matcher
matched to a currently-cataloged item carrying a genre that sanitizes to
that folder's name; and no regular file anywhere under the genre root was
overwritten — every file is still at its path with its original content. -/
theorem c4_run_invariant (env : PipelineEnv)
    (root : Option (List (String × Entry))) (T : List (String × Entry))
    (hrun : runPipeline env root = some T) :
    (∀ p t, getPath T p = some (Entry.symlink t) →
      ∃ g n item genre, p = [g, n] ∧ item ∈ env.items ∧ genre ∈ item.Genres ∧
        sanitizeGenre genre = g ∧
        ∃ mv, find_matching_jellyfin_item n env.items mv = some item) ∧
    (∀ p c, getPath (root.getD []) p = some (Entry.file c) →
      getPath T p = some (Entry.file c)) := by
  constructor
  · intro p t h
    rcases pipeline_symlink_provenance env root T hrun p t h with
      ⟨g, n, hp, mv, entries, me, item, hprov, hmem, hd, hname, hfind, ⟨genre, hgmem, hsan⟩, ht⟩
    exact ⟨g, n, item, genre, hp, find_matching_mem n env.items mv item hfind,
      List.take_subset 5 item.Genres hgmem, hsan, mv, hfind⟩
  · intro p c h
    have main_eq : runPipeline env root =
        some (if env.include_shows then
            process_media_folder env.shows env.items env.shows_dir_container
              env.genres_dir_container false
              (process_media_folder env.movies env.items env.movies_dir_container
                env.genres_dir_container true
                (ensure_genre_folders env.items (Option.map clearEntries root)))
          else
            process_media_folder env.movies env.items env.movies_dir_container
              env.genres_dir_container true
              (ensure_genre_folders env.items (Option.map clearEntries root))) := by
      cases root <;> rfl
    rw [main_eq] at hrun
    have hT := Option.some.inj hrun
    subst hT
    have hfileE : getPath (ensure_genre_folders env.items
        (Option.map clearEntries root)) p = some (Entry.file c) := by
      apply getPath_file_ensure
      cases root with
      | none => simpa using h
      | some es =>
          simp only [Option.map_some', Option.getD_some] at h ⊢
          exact getPath_clear_file p es c h
    cases hins : env.include_shows
    · rw [if_neg (by simp [hins])]
      exact getPath_file_process_media_folder env.movies env.items _ _ true _ p c hfileE
    · rw [if_pos (by simp [hins])]
      exact getPath_file_process_media_folder env.shows env.items _ _ false _ p c
        (getPath_file_process_media_folder env.movies env.items _ _ true _ p c hfileE)

/-- C7: every symlink present after a run is named after the local entry it
was created for and stores, as its target, the entry's container-namespace
path expressed relative to the container-namespace path of the genre
folder — host paths never enter the target computation. -/
theorem c7_symlink_container_relative_target (env : PipelineEnv)
    (root : Option (List (String × Entry))) (T : List (String × Entry))
    (hrun : runPipeline env root = some T) :
    ∀ p t, getPath T p = some (Entry.symlink t) →
      ∃ g n, p = [g, n] ∧
        ((∃ entries, env.movies = some entries ∧ (∃ me ∈ entries, me.name = n) ∧
            t = relpathC (env.movies_dir_container ++ [n])
              (env.genres_dir_container ++ [g])) ∨
         (∃ entries, env.shows = some entries ∧ env.include_shows = true ∧
            (∃ me ∈ entries, me.name = n) ∧
            t = relpathC (env.shows_dir_container ++ [n])
              (env.genres_dir_container ++ [g]))) := by
  intro p t h
  rcases pipeline_symlink_provenance env root T hrun p t h with
    ⟨g, n, hp, mv, entries, me, item, hprov, hmem, hd, hname, hfind, hgen, ht⟩
  rcases hprov with ⟨hmv, hment⟩ | ⟨hmv, hinc, hment⟩
  · subst hmv
    exact ⟨g, n, hp, Or.inl ⟨entries, hment, ⟨me, hmem, hname⟩, by simpa using ht⟩⟩
  · subst hmv
    exact ⟨g, n, hp, Or.inr ⟨entries, hment, hinc, ⟨me, hmem, hname⟩, by simpa using ht⟩⟩

theorem similarity_score_alpha : similarity_score "Alpha" alphaItem = 100 := by
  rw [similarity_score_of_exact_name _ _ (by decide)]
  have h1 : localYearOf "Alpha" = none := by decide
  have h2 : itemYearOf alphaItem = none := by decide
  rw [h1, h2]
  norm_num

theorem find_matching_alpha :
    find_matching_jellyfin_item "Alpha" [alphaItem] true = some alphaItem := by
  have hty : typeWanted true alphaItem = true := by decide
  rw [find_matching_jellyfin_item, find_matching_go, if_pos hty]
  simp only [similarity_score_alpha]
  rw [if_pos (show (0 : ℚ) < 100 ∧ (40 : ℚ) < 100 by norm_num)]
  rw [find_matching_go]

theorem alpha_run_eq :
    runPipeline alphaEnv
        (some [("Action", Entry.dir [("notes.txt", Entry.file "keep")])]) =
      some [("Action", Entry.dir [("notes.txt", Entry.file "keep"),
        ("Alpha", Entry.symlink ["..", "..", "Movies", "Alpha"])])] := by
  have hclear0 : clearEntries [("Action", Entry.dir [("notes.txt", Entry.file "keep")])] =
      [("Action", Entry.dir [("notes.txt", Entry.file "keep")])] := by
    simp [clearEntries]
  have e1 : runPipeline alphaEnv
      (some [("Action", Entry.dir [("notes.txt", Entry.file "keep")])]) =
      some (process_media_folder (some [⟨"Alpha", true⟩]) [alphaItem]
        ["media", "Movies"] ["media", "Genres"] true
        (ensure_genre_folders [alphaItem]
          (some (clearEntries
            [("Action", Entry.dir [("notes.txt", Entry.file "keep")])])))) := rfl
  rw [e1, hclear0]
  have hens0 : ensure_genre_folders [alphaItem]
      (some [("Action", Entry.dir [("notes.txt", Entry.file "keep")])]) =
      [("Action", Entry.dir [("notes.txt", Entry.file "keep")])] := rfl
  rw [hens0]
  have hsan : sanitizeGenre "Action" = "Action" := by decide
  simp only [process_media_folder, List.foldl_cons, List.foldl_nil, processMediaEntry,
    Bool.not_true, Bool.false_eq_true, if_false, find_matching_alpha]
  simp [alphaItem, linkGenreStep, hsan, lookupEntry, create_symlink, relpathC,
    commonPrefixLen, replaceEntry]

/-- Witness for C4: in the one-movie demo run, the only symlink sits at
`Action/Alpha` and comes from the cataloged item "Alpha" carrying genre
Action, and the pre-existing regular file `Action/notes.txt` survives with
its content. -/
theorem c4_run_invariant_witness :
    (∃ g n item genre, (["Action", "Alpha"] : List String) = [g, n] ∧
      item ∈ alphaEnv.items ∧ genre ∈ item.Genres ∧ sanitizeGenre genre = g ∧
      ∃ mv, find_matching_jellyfin_item n alphaEnv.items mv = some item) ∧
    getPath [("Action", Entry.dir [("notes.txt", Entry.file "keep"),
        ("Alpha", Entry.symlink ["..", "..", "Movies", "Alpha"])])]
      ["Action", "notes.txt"] = some (Entry.file "keep") := by
  have h := c4_run_invariant alphaEnv
    (some [("Action", Entry.dir [("notes.txt", Entry.file "keep")])]) _ alpha_run_eq
  exact ⟨h.1 ["Action", "Alpha"] ["..", "..", "Movies", "Alpha"] rfl,
    h.2 ["Action", "notes.txt"] "keep" rfl⟩

/-- Witness for C7: in the one-movie demo run, the symlink at `Action/Alpha`
is named after the local entry "Alpha" and stores the container-relative
target `../../Movies/Alpha` computed from the container paths. -/
theorem c7_symlink_container_relative_target_witness :
    ∃ g n, (["Action", "Alpha"] : List String) = [g, n] ∧
      ((∃ entries, alphaEnv.movies = some entries ∧ (∃ me ∈ entries, me.name = n) ∧
          (["..", "..", "Movies", "Alpha"] : List String) =
            relpathC (alphaEnv.movies_dir_container ++ [n])
              (alphaEnv.genres_dir_container ++ [g])) ∨
       (∃ entries, alphaEnv.shows = some entries ∧ alphaEnv.include_shows = true ∧
          (∃ me ∈ entries, me.name = n) ∧
          (["..", "..", "Movies", "Alpha"] : List String) =
            relpathC (alphaEnv.shows_dir_container ++ [n])
              (alphaEnv.genres_dir_container ++ [g]))) :=
  c7_symlink_container_relative_target alphaEnv
    (some [("Action", Entry.dir [("notes.txt", Entry.file "keep")])]) _ alpha_run_eq
    ["Action", "Alpha"] ["..", "..", "Movies", "Alpha"] rfl
